import Mathlib

/-!
Shallow embedding of the eda-embeddingsearch core (Go) in Lean 4.

Modelling conventions, applied uniformly:
* Go strings are modelled as `List Char` (`Str`); `String` literals are
  converted with `str`.  All inputs of interest are ASCII, so the ASCII-only
  case analysis of `unicode.ToLower` / `unicode.IsSpace` is what we embed.
* Go `float64` scores are modelled as `ℚ`.  Every weight in the scoring code
  is an integer or an integer multiple of 1.5, so all reachable scores are
  exact multiples of 1/2 and binary floating point arithmetic on them is
  exact; the rational model is therefore faithful.
* Go maps are modelled as association lists.  Where the Go code iterates a
  map (an order the Go runtime randomises), the embedding fixes the
  deterministic first-insertion order; no claim below depends on such an
  iteration order except through set-like properties.
* Go `panic` (reachable in `generateBigrams` via `make([]string, 0, -1)`)
  is modelled by `Option`: `none` is a crash of the surrounding call.
* `encoding/json.Unmarshal` of the two-field `Description`/`Fields` struct
  is external library code; it is abstracted as an explicit parameter
  `jparse : Str → Option (Str × List Str)` (`none` models a decode error,
  in which case the Go code falls back to empty description/fields).
-/

namespace EdaSearch

abbrev Str := List Char

def str (s : String) : Str := s.data

/-- The upper-to-lower mapping of the basic latin letters. -/
def lowerPairs : List (Char × Char) :=
  [('A', 'a'), ('B', 'b'), ('C', 'c'), ('D', 'd'), ('E', 'e'), ('F', 'f'),
   ('G', 'g'), ('H', 'h'), ('I', 'i'), ('J', 'j'), ('K', 'k'), ('L', 'l'),
   ('M', 'm'), ('N', 'n'), ('O', 'o'), ('P', 'p'), ('Q', 'q'), ('R', 'r'),
   ('S', 's'), ('T', 't'), ('U', 'u'), ('V', 'v'), ('W', 'w'), ('X', 'x'),
   ('Y', 'y'), ('Z', 'z')]

/-- ASCII case analysis of `strings.ToLower` (`unicode.ToLower` restricted to
basic latin letters, which is the alphabet of catalog keys and queries). -/
def charLower (c : Char) : Char :=
  ((lowerPairs.find? (fun p => p.1 == c)).map Prod.snd).getD c

def strLower (s : Str) : Str := s.map charLower

/-- The separator replacement of `Tokenize`: `.`, `-`, `_` become spaces. -/
def sepToSpace (c : Char) : Char :=
  if c = '.' ∨ c = '-' ∨ c = '_' then ' ' else c

/-- `unicode.IsSpace` restricted to ASCII (the whitespace set of
`strings.Fields`). -/
def isGoSpace (c : Char) : Bool :=
  c = ' ' || c = '\t' || c = '\n' || c = '\x0b' || c = '\x0c' || c = '\r'

/-- Accumulator loop of `goFields` (the accumulator holds the current
field, reversed). -/
def goFieldsAux : Str → Str → List Str
  | [], acc => if acc.isEmpty then [] else [acc.reverse]
  | c :: rest, acc =>
    if isGoSpace c then
      if acc.isEmpty then goFieldsAux rest []
      else acc.reverse :: goFieldsAux rest []
    else goFieldsAux rest (c :: acc)

/-- `strings.Fields`: split on whitespace runs, dropping empty fields. -/
def goFields (l : Str) : List Str := goFieldsAux l []

/-- `strings.Join` with a single-space separator. -/
def joinSpace : List Str → Str
  | [] => []
  | [t] => t
  | t :: ts => t ++ ' ' :: joinSpace ts

/-- `strings.HasPrefix s pre`. -/
def strStartsWith (s pre : Str) : Bool := pre.isPrefixOf s

/-- `strings.HasSuffix s suf`. -/
def strEndsWith (s suf : Str) : Bool := suf.reverse.isPrefixOf s.reverse

/-- `strings.Contains s sub` (is `sub` an infix of `s`). -/
def strContains (s sub : Str) : Bool :=
  match s with
  | [] => sub.isEmpty
  | c :: rest => sub.isPrefixOf (c :: rest) || strContains rest sub

/-- The remainder of `s` after the leftmost occurrence of `sub`
(`strings.Index` followed by slicing past the match); `none` when
`strings.Index` returns `-1`. -/
def afterFirst (sub s : Str) : Option Str :=
  if strStartsWith s sub then some (s.drop sub.length)
  else
    match s with
    | [] => none
    | _ :: rest => afterFirst sub rest

/-- `strings.Count s (str ".")` specialised to single characters. -/
def countChar (c : Char) (s : Str) : Nat := (s.filter (fun d => d = c)).length

/-- Decimal digit character of `n < 10`. -/
def digitChar (n : Nat) : Char := Char.ofNat (48 + n)

/-- Fuel-indexed decimal rendering loop (`fuel` bounds the digit count, so
it is never exhausted when started at `n + 1`). -/
def natDigitsAux : Nat → Nat → Str
  | 0, _ => []
  | fuel + 1, n =>
    if n < 10 then [digitChar n]
    else natDigitsAux fuel (n / 10) ++ [digitChar (n % 10)]

/-- Decimal rendering of a natural number (`fmt %d`). -/
def natDigits (n : Nat) : Str := natDigitsAux (n + 1) n

/-- Numeric value of a digit run (`strconv.Atoi` on an all-digit string;
the Go overflow error case is handled at the call sites, where the range
check `0 < v ∧ v ≤ 1000` subsumes it). -/
def digitsToNat (ds : Str) : Nat :=
  ds.foldl (fun acc c => acc * 10 + (c.toNat - 48)) 0

/-- Order-preserving deduplication (first occurrence wins), as performed by
the Go `seen := map[string]bool` loops. -/
def dedupAux : List Str → List Str → List Str
  | [], _ => []
  | k :: rest, seen =>
    if k ∈ seen then dedupAux rest seen else k :: dedupAux rest (k :: seen)

def dedupKeys (l : List Str) : List Str := dedupAux l []

/-- First value stored under a key in an association list (a Go map read). -/
def assocGet {α : Type} : List (Str × α) → Str → Option α
  | [], _ => none
  | (k, v) :: rest, key => if k = key then some v else assocGet rest key

/-- Update-or-append write to an association list (a Go map write,
determinised to first-insertion order). -/
def assocSet {α : Type} : List (Str × α) → Str → α → List (Str × α)
  | [], key, v => [(key, v)]
  | (k, w) :: rest, key, v =>
    if k = key then (k, v) :: rest else (k, w) :: assocSet rest key v

/-! ### Tokenizer (`internal/search/tokenizer.go`) -/

def stopWords : List Str :=
  [str "the", str "a", str "an", str "and", str "or",
   str "but", str "in", str "on", str "at", str "to",
   str "for", str "of", str "with", str "by", str "from",
   str "is", str "are", str "was", str "were", str "been",
   str "have", str "has", str "had", str "do", str "does",
   str "did", str "will", str "would", str "could", str "should",
   str "may", str "might", str "must", str "can", str "what",
   str "which", str "who", str "when", str "where", str "how",
   str "why", str "that", str "this", str "these", str "those",
   str "i", str "me", str "my", str "mine", str "we",
   str "us", str "our", str "ours", str "you", str "your",
   str "yours", str "he", str "him", str "his", str "she",
   str "her", str "hers", str "it", str "its", str "they",
   str "them", str "their", str "theirs"]

/-- `constants.MinTokenLength`. -/
def MinTokenLength : Nat := 2

/-- A token counted as a "meaningful word" by `Tokenize`. -/
def isMeaningful (t : Str) : Bool :=
  decide (t ∉ stopWords ∧ MinTokenLength ≤ t.length)

/-- A token kept by the stop-word filter of `Tokenize`. -/
def keepToken (t : Str) : Bool :=
  decide (t ∉ stopWords ∨ t = str "all" ∨ t = str "show" ∨
    t = str "get" ∨ t = str "list")

/-- The raw (pre-filter) token list of `Tokenize`. -/
def rawTokens (s : Str) : List Str :=
  goFields ((s.map charLower).map sepToSpace)

/-- `search.Tokenize`. -/
def Tokenize (s : Str) : List Str :=
  let tokens := rawTokens s
  let meaningfulWords := (tokens.filter isMeaningful).length
  if 2 ≤ meaningfulWords then tokens.filter keepToken else tokens

/-- The synonym/typo dictionary of `search.ExpandSynonyms`. -/
def synonymTable : List (Str × Str) :=
  [(str "stats", str "statistics"), (str "stat", str "statistics"),
   (str "alarms", str "alarm"), (str "alarm", str "alarms"),
   (str "fanspeed", str "fan"), (str "fan-speed", str "fan"),
   (str "temp", str "temperature"), (str "temps", str "temperature"),
   (str "mtu", str "mtu"), (str "interswitch", str "link"),
   (str "links", str "link"), (str "iface", str "interface"),
   (str "ifaces", str "interface"), (str "intf", str "interface"),
   (str "intfs", str "interface"), (str "interfaces", str "interface"),
   (str "neighbors", str "neighbor"), (str "routes", str "route"),
   (str "metrics", str "metric"), (str "info", str "information"),
   (str "config", str "configure"), (str "configuration", str "configure"),
   (str "inferface", str "interface"), (str "inferfaces", str "interface"),
   (str "interace", str "interface"), (str "intrface", str "interface"),
   (str "interfce", str "interface"), (str "interfacs", str "interface"),
   (str "interfaes", str "interface"), (str "inerface", str "interface"),
   (str "inerfaces", str "interface"), (str "statitics", str "statistics"),
   (str "statsitics", str "statistics"), (str "statistcs", str "statistics"),
   (str "statistis", str "statistics"), (str "neighors", str "neighbor"),
   (str "neigbors", str "neighbor"), (str "neighbor", str "neighbor"),
   (str "routers", str "router"), (str "sysem", str "system"),
   (str "systm", str "system"), (str "bandwith", str "bandwidth"),
   (str "bandwdth", str "bandwidth"), (str "alrms", str "alarm"),
   (str "alrm", str "alarm"), (str "confg", str "configure"),
   (str "cofig", str "configure"), (str "usge", str "usage"),
   (str "useage", str "usage"), (str "dwn", str "down"),
   (str "drps", str "drops"), (str "drop", str "drops")]

/-- `search.ExpandSynonyms`. -/
def ExpandSynonyms (words : List Str) : List Str :=
  words.map (fun w => (assocGet synonymTable w).getD w)

/-! ### Data model (`pkg/models`) -/

structure EmbeddingEntry where
  ReferenceText : Str
  Text : Str
deriving DecidableEq

structure EmbeddingDB where
  Table : List (Str × EmbeddingEntry)
  InvertedIndex : Option (List (Str × List Str))
deriving DecidableEq

structure OrderByClause where
  Field : Str
  Direction : Str
  Algorithm : Str
deriving DecidableEq

structure DeltaClause where
  Unit : Str
  Value : Nat
deriving DecidableEq

structure EQLQuery where
  Table : Str
  Fields : List Str
  WhereClause : Str
  OrderBy : List OrderByClause
  Limit : Nat
  Delta : Option DeltaClause
deriving DecidableEq

structure SearchResult where
  Key : Str
  Score : ℚ
  -- the Go field is named EQLQuery; renamed since it would shadow its type
  Query : EQLQuery
  Description : Str
  AvailableFields : List Str
  Explanation : Str
deriving DecidableEq

/-- `e.db.Table[key]` (a Go map read yielding the zero value when absent). -/
def lookupTable (db : EmbeddingDB) (key : Str) : EmbeddingEntry :=
  (assocGet db.Table key).getD ⟨[], []⟩

def tableKeys (db : EmbeddingDB) : List Str := db.Table.map Prod.fst

/-! ### Regex scanners

The extraction rules use a handful of fixed RE2 patterns over lowercased
ASCII text.  Each is embedded as a direct left-to-right scan; on these
patterns maximal-munch digit/word runs plus explicit optional-group and
alternation order reproduce RE2's leftmost-first submatch semantics
exactly (no pattern here can succeed with a shorter greedy run where the
maximal run fails, except the word run of the numeric-comparison pattern,
which is backtracked explicitly below). -/

/-- RE2 `\s` (ASCII). -/
def isReSpace (c : Char) : Bool :=
  c = ' ' || c = '\t' || c = '\n' || c = '\x0c' || c = '\r'

/-- RE2 `\w` (ASCII). -/
def isWordChar (c : Char) : Bool := c.isAlphanum || c = '_'

/-- Leftmost capture of `kw(\d+)` where `kw` is a literal (e.g. `"top "`). -/
def scanKwNum (kw : Str) (s : Str) : Option Str :=
  match s with
  | [] => none
  | _ :: rest =>
    if strStartsWith s kw then
      let ds := (s.drop kw.length).takeWhile Char.isDigit
      if ds.isEmpty then scanKwNum kw rest else some ds
    else scanKwNum kw rest

/-- Leftmost capture of `(\d+) results`. -/
def scanNumResults (s : Str) : Option Str :=
  match s with
  | [] => none
  | _ :: rest =>
    let ds := s.takeWhile Char.isDigit
    if !ds.isEmpty && strStartsWith (s.drop ds.length) (str " results") then
      some ds
    else scanNumResults rest

/-- Leftmost capture of `every (\d+) <unit>s?` (units `second`/`millisecond`). -/
def scanEveryUnit (unitWord : Str) (s : Str) : Option Str :=
  match s with
  | [] => none
  | _ :: rest =>
    if strStartsWith s (str "every ") then
      let after := s.drop 6
      let ds := after.takeWhile Char.isDigit
      if !ds.isEmpty && strStartsWith (after.drop ds.length) (' ' :: unitWord) then
        some ds
      else scanEveryUnit unitWord rest
    else scanEveryUnit unitWord rest

/-- Leftmost capture of `<lit>\s+(?:<optWord>\s+)?(\d+)` (with `\s*` instead
of the first `\s+` when `atLeastOneSpace` is false).  Covers the `vlan`,
`lag`, `as` and `mtu` value-extraction patterns. -/
def scanLitNum (lit : Str) (optWord : Option Str) (atLeastOneSpace : Bool)
    (s : Str) : Option Str :=
  match s with
  | [] => none
  | _ :: rest =>
    if strStartsWith s lit then
      let afterLit := s.drop lit.length
      let sp := afterLit.takeWhile isReSpace
      if atLeastOneSpace && sp.isEmpty then
        scanLitNum lit optWord atLeastOneSpace rest
      else
        let base := afterLit.drop sp.length
        let viaOpt : Option Str :=
          match optWord with
          | some w =>
            if strStartsWith base w then
              let afterW := base.drop w.length
              let sp2 := afterW.takeWhile isReSpace
              if sp2.isEmpty then none
              else
                let ds := (afterW.drop sp2.length).takeWhile Char.isDigit
                if ds.isEmpty then none else some ds
            else none
          | none => none
        match viaOpt with
        | some ds => some ds
        | none =>
          let ds := base.takeWhile Char.isDigit
          if ds.isEmpty then scanLitNum lit optWord atLeastOneSpace rest
          else some ds
    else scanLitNum lit optWord atLeastOneSpace rest

/-- Operator alternatives of the numeric-comparison pattern, in the
alternation order of the regex
`(\w+)\s*(greater than|less than|equal to|!=|>=|<=|>|<|=)\s*(\d+)`. -/
def numOps : List Str :=
  [str "greater than", str "less than", str "equal to", str "!=",
   str ">=", str "<=", str ">", str "<", str "="]

/-- Match `\s*(op)\s*(\d+)` at the start of `rest`; returns the operator,
the digit capture and the number of consumed characters. -/
def tryOpDigits (rest : Str) : Option (Str × Str × Nat) :=
  let sp1 := rest.takeWhile isReSpace
  let rest2 := rest.drop sp1.length
  match numOps.find? (fun op => strStartsWith rest2 op) with
  | none => none
  | some op =>
    let afterOp := rest2.drop op.length
    let sp2 := afterOp.takeWhile isReSpace
    let ds := (afterOp.drop sp2.length).takeWhile Char.isDigit
    if ds.isEmpty then none
    else some (op, ds, sp1.length + op.length + sp2.length + ds.length)

/-- Backtracking over the greedy `\w+` run: try word prefixes of length
`n, n-1, …, 1`. -/
def tryShrinkWord (s : Str) (w : Str) : Nat → Option ((Str × Str × Str) × Nat)
  | 0 => none
  | n + 1 =>
    match tryOpDigits (s.drop (n + 1)) with
    | some (op, ds, consumed) =>
      some ((w.take (n + 1), op, ds), (n + 1) + consumed)
    | none => tryShrinkWord s w n

/-- Match the numeric-comparison pattern at the start of `s`. -/
def tryNumAt (s : Str) : Option ((Str × Str × Str) × Nat) :=
  let w := s.takeWhile isWordChar
  if w.isEmpty then none else tryShrinkWord s w w.length

/-- Fuel-indexed scanning loop for `findAllNum` (each step consumes at
least one character, so fuel `s.length` is never exhausted). -/
def findAllNumAux : Nat → Str → List (Str × Str × Str)
  | 0, _ => []
  | fuel + 1, s =>
    match s with
    | [] => []
    | _ :: rest =>
      match tryNumAt s with
      | some (m, consumed) => m :: findAllNumAux fuel (s.drop (max 1 consumed))
      | none => findAllNumAux fuel rest

/-- `FindAllStringSubmatch` of the numeric-comparison pattern: successive
non-overlapping leftmost matches `(field, op, digits)`. -/
def findAllNum (s : Str) : List (Str × Str × Str) := findAllNumAux s.length s

/-! ### Clause extractor (`internal/eql/extractor.go`, `field_mappings.go`) -/

/-- `eql.FieldMapping`; `ValuePattern` is the compiled regex, embedded as
its leftmost-capture scanner. -/
structure FieldMapping where
  Patterns : List Str
  FieldName : Str
  Value : Str
  ValuePattern : Option (Str → Option Str)
  ValidTables : List Str
  RequiredTableKeywords : List Str

/-- Literal-valued mapping constructor (only `Patterns`, `FieldName`,
`Value` and `RequiredTableKeywords` are populated in the source table). -/
def fm (pats : List Str) (f v : Str) (req : List Str) : FieldMapping :=
  ⟨pats, f, v, none, [], req⟩

/-- Regex-valued mapping constructor. -/
def rxm (pats : List Str) (f : Str) (scan : Str → Option Str)
    (req : List Str) : FieldMapping :=
  ⟨pats, f, [], some scan, [], req⟩

/-- `eql.GetFieldMappings` (slice literal, in source order). -/
def fieldMappingsTable : List FieldMapping :=
  [fm [str "up", str "operational", str "active"] (str "oper-state") (str "up") [str "interface"],
   fm [str "down", str "failed", str "inactive"] (str "oper-state") (str "down") [str "interface"],
   fm [str "enabled", str "enable"] (str "admin-state") (str "enable") [str "interface"],
   fm [str "disabled", str "disable"] (str "admin-state") (str "disable") [str "interface"],
   fm [str "400g", str "400gbps", str "400 gbps"] (str "port-speed") (str "400G") [str "ethernet", str "interface"],
   fm [str "100g", str "100gbps", str "100 gbps"] (str "port-speed") (str "100G") [str "ethernet", str "interface"],
   fm [str "50g", str "50gbps", str "50 gbps"] (str "port-speed") (str "50G") [str "ethernet", str "interface"],
   fm [str "40g", str "40gbps", str "40 gbps"] (str "port-speed") (str "40G") [str "ethernet", str "interface"],
   fm [str "25g", str "25gbps", str "25 gbps"] (str "port-speed") (str "25G") [str "ethernet", str "interface"],
   fm [str "10g", str "10gbps", str "10 gbps"] (str "port-speed") (str "10G") [str "ethernet", str "interface"],
   fm [str "1g", str "1gbps", str "1 gbps", str "gigabit"] (str "port-speed") (str "1G") [str "ethernet", str "interface"],
   fm [str "fiber", str "optical", str "sfp", str "qsfp"] (str "physical-medium") (str "fiber") [str "ethernet", str "interface"],
   fm [str "copper", str "dac", str "electrical"] (str "physical-medium") (str "copper") [str "ethernet", str "interface"],
   fm [str "copper", str "electrical"] (str "ethernet-pmd") (str "~ \"BASE-T\"") [str "transceiver", str "ethernet"],
   fm [str "fiber", str "optical"] (str "ethernet-pmd") (str "!~ \"BASE-T\"") [str "transceiver", str "ethernet"],
   fm [str "vlan tagging enabled", str "vlan-tagging", str "tagged"] (str "vlan-tagging") (str "true") [str "interface"],
   fm [str "vlan tagging disabled", str "no vlan", str "untagged"] (str "vlan-tagging") (str "false") [str "interface"],
   fm [str "qsfp28"] (str "form-factor") (str "QSFP28") [str "transceiver"],
   fm [str "qsfp+"] (str "form-factor") (str "QSFP+") [str "transceiver"],
   fm [str "qsfp"] (str "form-factor") (str "QSFP") [str "transceiver"],
   fm [str "sfp+"] (str "form-factor") (str "SFP+") [str "transceiver"],
   fm [str "sfp"] (str "form-factor") (str "SFP") [str "transceiver"],
   fm [str "cfp"] (str "form-factor") (str "CFP") [str "transceiver"],
   fm [str "xfp"] (str "form-factor") (str "XFP") [str "transceiver"],
   fm [str "lag members", str "lag member"] (str "aggregate-id") (str "!= null") [str "ethernet"],
   fm [str "lacp"] (str "lacp-mode") (str "active") [str "lag"],
   fm [str "static lag"] (str "lag-type") (str "static") [str "lag"],
   fm [str "dynamic lag"] (str "lag-type") (str "lacp") [str "lag"],
   fm [str "established"] (str "session-state") (str "established") [str "bgp", str "neighbor"],
   fm [str "idle"] (str "session-state") (str "idle") [str "bgp", str "neighbor"],
   fm [str "active"] (str "session-state") (str "active") [str "bgp", str "neighbor"],
   fm [str "connect"] (str "session-state") (str "connect") [str "bgp", str "neighbor"],
   fm [str "opensent"] (str "session-state") (str "opensent") [str "bgp", str "neighbor"],
   fm [str "openconfirm"] (str "session-state") (str "openconfirm") [str "bgp", str "neighbor"],
   fm [str "ebgp", str "external"] (str "peer-type") (str "external") [str "bgp", str "neighbor"],
   fm [str "ibgp", str "internal"] (str "peer-type") (str "internal") [str "bgp", str "neighbor"],
   fm [str "lc connector", str "lc"] (str "connector-type") (str "LC") [str "transceiver"],
   fm [str "mpo", str "mtp"] (str "connector-type") (str "MPO") [str "transceiver"]]

/-- `eql.GetRegexMappings` (slice literal, in source order). -/
def regexMappingsTable : List FieldMapping :=
  [rxm [str "vlan"] (str "vlan-id")
     (scanLitNum (str "vlan") (some (str "id")) true) [str "vlan"],
   rxm [str "lag"] (str "aggregate-id")
     (scanLitNum (str "lag") none false) [str "ethernet"],
   rxm [str "as ", str "as number"] (str "peer-as")
     (scanLitNum (str "as") (some (str "number")) true) [str "bgp"],
   rxm [str "mtu"] (str "mtu")
     (scanLitNum (str "mtu") none true) [str "interface"]]

/-- `eql.ConditionalMapping`. -/
structure ConditionalMapping where
  Condition : Str → Str → Bool
  Mappings : List FieldMapping

/-- `eql.GetConditionalMappings`. -/
def conditionalMappingsTable : List ConditionalMapping :=
  [⟨fun query tablePath =>
      strContains (strLower query) (str "down") &&
      strContains tablePath (str "bgp") &&
      strContains tablePath (str "neighbor") &&
      !strContains (strLower query) (str "established"),
    [fm [] (str "session-state") (str "!= \"established\"") []]⟩]

/-- `eql.FieldKeywordMappings` (a Go map whose iteration order is
randomised; determinised to the source-literal order). -/
def fieldKeywordMappings : List (Str × List Str) :=
  [(str "state", [str "admin-state", str "oper-state", str "state"]),
   (str "status", [str "status", str "oper-state", str "admin-state"]),
   (str "description", [str "description"]),
   (str "name", [str "name"]),
   (str "memory", [str "memory", str "memory-usage", str "used"]),
   (str "cpu", [str "cpu", str "cpu-usage"]),
   (str "traffic", [str "in-octets", str "out-octets"]),
   (str "bandwidth", [str "in-octets", str "out-octets"]),
   (str "packets", [str "in-packets", str "out-packets"]),
   (str "errors", [str "in-error-packets", str "out-error-packets", str "in-errors", str "out-errors"]),
   (str "severity", [str "severity"]),
   (str "time", [str "time-created", str "last-change", str "last-clear"]),
   (str "octets", [str "in-octets", str "out-octets"]),
   (str "mtu", [str "mtu", str "ip-mtu", str "oper-ip-mtu"]),
   (str "drops", [str "in-drops", str "out-drops", str "in-discards", str "out-discards"]),
   (str "speed", [str "port-speed", str "lag-speed", str "member-speed"]),
   (str "vlan", [str "vlan-tagging", str "vlan-id", str "tpid"]),
   (str "lag", [str "aggregate-id", str "lag-type", str "lacp-mode"]),
   (str "optical", [str "form-factor", str "connector-type", str "wavelength"]),
   (str "transceiver", [str "form-factor", str "vendor", str "serial-number"]),
   (str "fiber", [str "physical-medium", str "connector-type", str "wavelength"]),
   (str "copper", [str "physical-medium", str "ethernet-pmd"]),
   (str "sfp", [str "form-factor", str "vendor-part-number"]),
   (str "mac", [str "hw-mac-address", str "system-id-mac"]),
   (str "power", [str "input-power", str "output-power", str "laser-bias-current"]),
   (str "vendor", [str "vendor", str "vendor-part-number", str "vendor-serial-number"]),
   (str "aggregate", [str "aggregate-id", str "lag-type", str "min-links"]),
   (str "lacp", [str "lacp-mode", str "lacp-port-priority", str "interval"]),
   (str "tagged", [str "vlan-tagging", str "vlan-id"]),
   (str "physical", [str "physical-medium", str "linecard", str "forwarding-complex"]),
   (str "hardware", [str "hw-mac-address", str "form-factor", str "vendor"])]

/-- `eql.ParseEmbeddingText` (decode error yields no fields). -/
def ParseEmbeddingText (jparse : Str → Option (Str × List Str)) (text : Str) :
    List Str :=
  match jparse text with
  | some (_, fs) => fs
  | none => []

/-- `findMatchingFields` closure inside `eql.ExtractFields`. -/
def findMatchingFields (avail : List Str) (keywords : List Str) : List Str :=
  keywords.foldl (fun ms kw =>
    avail.foldl (fun ms a =>
      if strContains (strLower a) kw then
        if a ∈ ms then ms else ms ++ [a]
      else ms) ms) []

/-- `eql.ExtractFields`. -/
def ExtractFields (jparse : Str → Option (Str × List Str))
    (query tablePath : Str) (entry : EmbeddingEntry) : List Str :=
  let lower := strLower query
  let avail := ParseEmbeddingText jparse entry.Text
  let fields := fieldKeywordMappings.foldl (fun fs p =>
    if strContains lower p.1 then
      (findMatchingFields avail p.2).foldl (fun fs m =>
        if m ∈ fs then fs else fs ++ [m]) fs
    else fs) []
  if strContains lower (str "error") && strContains tablePath (str "interface") &&
      !strContains tablePath (str "statistics") && fields.isEmpty then
    fields ++ [str "statistics"]
  else fields

/-- `eql.cleanPunctuation` (`strings.TrimSuffix` chain). -/
def cleanPunctuation (w : Str) : Str :=
  let w := if strEndsWith w (str "?") then w.dropLast else w
  let w := if strEndsWith w (str "!") then w.dropLast else w
  let w := if strEndsWith w (str ".") then w.dropLast else w
  if strEndsWith w (str ",") then w.dropLast else w

def isGenericNodeReference (w : Str) : Bool :=
  w = str "nodes" || w = str "node" || w = str "my"

/-- `eql.checkNodePattern`. -/
def checkNodePattern (w : Str) : Option Str :=
  if (strStartsWith w (str "leaf") || strStartsWith w (str "spine")) &&
      decide (4 < w.length) then
    match w.getLast? with
    | some c => if '0' ≤ c ∧ c ≤ '9' then some w else none
    | none => none
  else none

def nodeSkipWords : List Str :=
  [str "nodes", str "node", str "my", str "the",
   str "bgp", str "ospf", str "isis", str "mpls",
   str "interface", str "interfaces", str "router",
   str "system", str "all", str "any",
   str "errors", str "error", str "drops", str "drop",
   str "statistics", str "stats", str "status",
   str "configuration", str "config", str "state",
   str "up", str "down", str "active", str "inactive"]

/-- `eql.checkPrepositionPattern`. -/
def checkPrepositionPattern (w : Str) (i : Nat) (ws : List Str) : Option Str :=
  if (w = str "on" || w = str "for" || w = str "from") &&
      decide (i + 1 < ws.length) then
    let next := cleanPunctuation (ws.getD (i + 1) [])
    if next ∉ nodeSkipWords ∧ 1 < next.length then some next else none
  else none

/-- `eql.ExtractNodeNames` (collect all matches in order of appearance and
deduplicate). -/
def ExtractNodeNames (query : Str) : List Str :=
  let ws := goFields (strLower query)
  let collected := ws.enum.foldl (fun acc p =>
    let w := cleanPunctuation p.2
    if isGenericNodeReference w then acc
    else
      let acc := match checkNodePattern w with
        | some n => acc ++ [n]
        | none => acc
      match checkPrepositionPattern w p.1 ws with
      | some n => acc ++ [n]
      | none => acc) []
  dedupKeys collected

/-- `eql.isValidForTable`. -/
def isValidForTable (m : FieldMapping) (tablePath : Str) : Bool :=
  if m.ValidTables.isEmpty && m.RequiredTableKeywords.isEmpty then true
  else
    let tpl := strLower tablePath
    if m.ValidTables.any (fun vt => strContains tpl (strLower vt)) then true
    else
      !m.RequiredTableKeywords.isEmpty &&
        m.RequiredTableKeywords.all (fun kw => strContains tpl (strLower kw))

/-- `eql.applyFieldMappings` (first matching pattern per mapping wins). -/
def applyFieldMappings (lower tablePath : Str) (conds : List (Str × Str)) :
    List (Str × Str) :=
  fieldMappingsTable.foldl (fun cs m =>
    if isValidForTable m tablePath then
      match m.Patterns.find? (fun p => strContains lower (strLower p)) with
      | some _ => assocSet cs m.FieldName m.Value
      | none => cs
    else cs) conds

/-- `eql.applyRegexMappings`. -/
def applyRegexMappings (lower tablePath : Str) (conds : List (Str × Str)) :
    List (Str × Str) :=
  regexMappingsTable.foldl (fun cs m =>
    if isValidForTable m tablePath then
      match m.Patterns.find? (fun p => strContains lower (strLower p)) with
      | some _ =>
        match m.ValuePattern with
        | some scan =>
          match scan lower with
          | some v => assocSet cs m.FieldName v
          | none => cs
        | none => cs
      | none => cs
    else cs) conds

/-- `eql.applyConditionalMappings`. -/
def applyConditionalMappings (lower tablePath : Str)
    (conds : List (Str × Str)) : List (Str × Str) :=
  conditionalMappingsTable.foldl (fun cs cm =>
    if cm.Condition lower tablePath then
      cm.Mappings.foldl (fun cs2 m => assocSet cs2 m.FieldName m.Value) cs
    else cs) conds

/-- `eql.normalizeOperator`. -/
def normalizeOperator (op : Str) : Str :=
  if op = str "greater than" then str ">"
  else if op = str "less than" then str "<"
  else if op = str "equal to" then str "="
  else op

/-- `eql.extractNumericConditions`. -/
def extractNumericConditions (lower : Str) (conds : List (Str × Str)) :
    List (Str × Str) :=
  (findAllNum lower).foldl (fun cs m =>
    assocSet cs m.1 (normalizeOperator m.2.1 ++ ' ' :: m.2.2)) conds

/-- `eql.ExtractConditions` (the condition map is determinised to
first-insertion order; later stages overwrite earlier values in place). -/
def ExtractConditions (query tablePath : Str) : List (Str × Str) :=
  let lower := strLower query
  extractNumericConditions lower
    (applyConditionalMappings lower tablePath
      (applyRegexMappings lower tablePath
        (applyFieldMappings lower tablePath [])))

/-- `fmt %q` on the value strings appearing here (quote, escaping inner
quotes and backslashes; no control characters occur in the rule tables). -/
def goEscape : Str → Str
  | [] => []
  | c :: r =>
    if c = '"' then '\\' :: '"' :: goEscape r
    else if c = '\\' then '\\' :: '\\' :: goEscape r
    else c :: goEscape r

def quoteGo (s : Str) : Str := '"' :: (goEscape s ++ ['"'])

def joinCommaSpace : List Str → Str
  | [] => []
  | [x] => x
  | x :: xs => x ++ ',' :: ' ' :: joinCommaSpace xs

def joinAnd : List Str → Str
  | [] => []
  | [x] => x
  | x :: xs => x ++ str " and " ++ joinAnd xs

/-- The node-name fragment of `eql.GenerateWhereClause`
(`name = "X"` for a single node, `name in ["X", "Y", …]` otherwise). -/
def renderNodeClause (ns : List Str) : Str :=
  match ns with
  | [n] => str ".namespace.node.name = " ++ quoteGo n
  | _ => str ".namespace.node.name in [" ++
      joinCommaSpace (ns.map quoteGo) ++ str "]"

/-- One condition fragment of `eql.GenerateWhereClause`. -/
def renderCond (f v : Str) : Str :=
  if strStartsWith v (str ">") || strStartsWith v (str "<") ||
      strStartsWith v (str "=") || strStartsWith v (str "!") then
    f ++ ' ' :: v
  else f ++ str " = " ++ quoteGo v

/-- `eql.GenerateWhereClause`. -/
def GenerateWhereClause (tablePath query : Str) : Str :=
  let ns := ExtractNodeNames query
  let whereParts :=
    if decide (0 < ns.length) &&
        strContains tablePath (str ".namespace.node.") then
      [renderNodeClause ns]
    else []
  let conds := ExtractConditions query tablePath
  joinAnd (whereParts ++ conds.map (fun p => renderCond p.1 p.2))

/-- `findSortField` closure inside `eql.ExtractOrderBy`. -/
def findSortField (avail : List Str) (keywords : List Str) : Option Str :=
  keywords.findSome? (fun kw => avail.find? (fun f => strContains (strLower f) kw))

def hasDescendingKeywords (lower : Str) : Bool :=
  strContains lower (str "top") || strContains lower (str "highest") ||
    strContains lower (str "most")

def hasAscendingKeywords (lower : Str) : Bool :=
  strContains lower (str "lowest") || strContains lower (str "least")

/-- `eql.getDescendingSortConfig`. -/
def getDescendingSortKeywords (lower : Str) : Option (List Str) :=
  if strContains lower (str "memory") then
    some [str "memory-usage", str "memory-utilization", str "utilization", str "used"]
  else if strContains lower (str "cpu") then
    some [str "cpu-utilization", str "cpu-usage", str "cpu"]
  else if strContains lower (str "traffic") then
    some [str "in-octets", str "out-octets", str "octets"]
  else none

/-- `eql.ExtractOrderBy` (descending, ascending, time-based and default
checks, in that order). -/
def ExtractOrderBy (jparse : Str → Option (Str × List Str))
    (query tablePath : Str) (entry : EmbeddingEntry) : List OrderByClause :=
  let lower := strLower query
  let avail := ParseEmbeddingText jparse entry.Text
  let ob : List OrderByClause := []
  let ob :=
    if hasDescendingKeywords lower then
      match getDescendingSortKeywords lower with
      | some kws =>
        match findSortField avail kws with
        | some f => ob ++ [⟨f, str "descending", []⟩]
        | none => ob
      | none => ob
    else ob
  let ob :=
    if hasAscendingKeywords lower then
      if strContains lower (str "memory") then
        match findSortField avail
            [str "memory-usage", str "memory-utilization", str "utilization", str "used"] with
        | some f => ob ++ [⟨f, str "ascending", []⟩]
        | none => ob
      else ob
    else ob
  let ob :=
    if strContains tablePath (str "alarm") then
      if strContains lower (str "recent") || strContains lower (str "latest") then
        match findSortField avail
            [str "time-created", str "last-change", str "timestamp"] with
        | some f => ob ++ [⟨f, str "descending", []⟩]
        | none => ob
      else ob
    else ob
  if ob.isEmpty && strContains lower (str "sort") then
    match findSortField avail [str "name"] with
    | some f => ob ++ [⟨f, str "ascending", str "natural"⟩]
    | none => ob
  else ob

def MaxLimitValue : Nat := 1000
def DefaultTopLimit : Nat := 10

/-- The `for _, pattern := range patterns` loop body of `eql.ExtractLimit`:
the first match of each pattern is taken; an out-of-range (or
overflowing-`Atoi`) value abandons that pattern and moves on to the next.
`0 < v ∧ v ≤ MaxLimitValue` coincides with Go's
`err == nil && limit > 0 && limit <= MaxLimitValue` because any value
failing `Atoi`'s 64-bit range also fails `≤ 1000`. -/
def limitFromPatterns : List (Str → Option Str) → Str → Option Nat
  | [], _ => none
  | p :: ps, lower =>
    match p lower with
    | some ds =>
      let v := digitsToNat ds
      if 0 < v ∧ v ≤ MaxLimitValue then some v else limitFromPatterns ps lower
    | none => limitFromPatterns ps lower

/-- The four limit patterns, in source (priority) order:
`top N`, `first N`, `limit N`, `N results`. -/
def limitPatternScanners : List (Str → Option Str) :=
  [scanKwNum (str "top "), scanKwNum (str "first "),
   scanKwNum (str "limit "), scanNumResults]

/-- `eql.ExtractLimit`. -/
def ExtractLimit (query : Str) : Nat :=
  let lower := strLower query
  match limitFromPatterns limitPatternScanners lower with
  | some v => v
  | none =>
    if strContains lower (str "top") || strContains lower (str "highest") then
      DefaultTopLimit
    else 0

/-- The delta patterns.  The Go map iterates in random order, but on any
query at most one capturing pattern can produce a value, and the
`realtime` pattern has no capture group so its `len(matches) > 1` guard
never holds; the determinised order below is therefore faithful up to the
simultaneous-`seconds`/`milliseconds` corner, fixed seconds-first. -/
def deltaPatterns : List (Str × (Str → Option Str)) :=
  [(str "second", scanEveryUnit (str "second")),
   (str "millisecond", scanEveryUnit (str "millisecond")),
   (str "realtime", fun _ => none)]

def deltaFromPatterns : List (Str × (Str → Option Str)) → Str →
    Option DeltaClause
  | [], _ => none
  | (u, p) :: ps, lower =>
    match p lower with
    | some ds =>
      if 0 < digitsToNat ds then some ⟨u ++ str "s", digitsToNat ds⟩
      else deltaFromPatterns ps lower
    | none => deltaFromPatterns ps lower

def RealTimeIntervalSeconds : Nat := 1

/-- `eql.ExtractDelta`. -/
def ExtractDelta (query : Str) : Option DeltaClause :=
  let lower := strLower query
  match deltaFromPatterns deltaPatterns lower with
  | some d => some d
  | none =>
    if strContains lower (str "real") && strContains lower (str "time") then
      some ⟨str "seconds", RealTimeIntervalSeconds⟩
    else none

/-! ### Scoring (`internal/search`, heuristic sub-scores of `scoreEntry`) -/

/-- `descriptionScore`. -/
def descriptionScore (jparse : Str → Option (Str × List Str))
    (queryLower : Str) (entry : EmbeddingEntry) (words : List Str) : ℚ :=
  match jparse entry.Text with
  | none => 0
  | some (desc, _) =>
    let descTokens := Tokenize desc
    let descLower := strLower desc
    let descMatchCount := (words.filter (fun w => decide (w ∈ descTokens))).length
    (3 : ℚ) * descMatchCount
    + (if strContains queryLower (str "list of") &&
          strContains descLower (str "list of") then 5 else 0)
    + (if strContains queryLower (str "all") &&
          strContains descLower (str "all") then 3 else 0)
    + (if strContains queryLower (str "show") &&
          strContains descLower (str "display") then 2 else 0)
    + (if strContains queryLower (str "get") &&
          strContains descLower (str "retrieve") then 2 else 0)
    + (if 2 ≤ descMatchCount ∧ words.length / 2 ≤ descMatchCount then 5 else 0)

/-- Word-class weight of a path-matched token in `keywordScore`. -/
def keywordWeight (w : Str) : ℚ :=
  if w = str "interface" ∨ w = str "interfaces" then 8
  else if w = str "statistics" then 6
  else if w = str "state" ∨ w = str "configure" then 4
  else 3

/-- `keywordScore` (score and path-match count). -/
def keywordScore (keyTokens textTokens words : List Str) : ℚ × Nat :=
  let lastBonus : ℚ :=
    match keyTokens.getLast? with
    | some lastSegment =>
      10 * ((words.filter (fun w => w = lastSegment)).length : ℚ)
    | none => 0
  words.foldl (fun acc w =>
    if decide (w ∈ keyTokens) then (acc.1 + keywordWeight w, acc.2 + 1)
    else if decide (w ∈ textTokens) then (acc.1 + 1, acc.2)
    else acc) (lastBonus, 0)

/-- `interfaceScore` (the Go function also receives the token list but does
not use it). -/
def interfaceScore (key keyLower queryLower : Str) : ℚ :=
  if strContains queryLower (str "interface") then
    (if strContains keyLower (str "violator") ||
        strContains keyLower (str "security") then -20 else 0)
    + (if strEndsWith key (str ".interface") &&
          !strContains key (str ".protocols.") then 20 else 0)
    + (if strContains queryLower (str "statistics") &&
          strEndsWith key (str ".interface.statistics") then 15 else 0)
    + (if !strContains queryLower (str "bgp") &&
          !strContains queryLower (str "ospf") &&
          !strContains queryLower (str "isis") &&
          (strContains keyLower (str "protocols.bgp") ||
           strContains keyLower (str "protocols.ospf") ||
           strContains keyLower (str "protocols.isis")) then -15 else 0)
    + (if strContains queryLower (str "interfaces") &&
          strEndsWith key (str ".interface") then 10 else 0)
  else 0

/-- `bgpScore`. -/
def bgpScore (queryLower key : Str) : ℚ :=
  if strContains queryLower (str "bgp") &&
      strContains queryLower (str "neighbor") then
    (if strContains key (str "bgp") && strEndsWith key (str ".neighbor")
      then 15 else 0)
    + (if strContains key (str "maintenance") then -10 else 0)
  else 0

/-- `segmentMatchScore` (dot-distance from the leftmost occurrence of each
token to the end of the key). -/
def segmentMatchScore (keyLower : Str) (words : List Str) : ℚ :=
  words.foldl (fun acc word =>
    match afterFirst word keyLower with
    | some afterMatch =>
      let dotCount := countChar '.' afterMatch
      if dotCount = 0 then acc + 10
      else if dotCount ≤ 2 then acc + 6
      else if dotCount ≤ 4 then acc + 2
      else acc
    | none => acc) 0

/-- `subinterfaceScore`. -/
def subinterfaceScore (query key : Str) : ℚ :=
  if strContains query (str "subinterface") &&
      strContains key (str "subinterface") then
    if strEndsWith key (str ".subinterface") then 10 else 2
  else 0

/-- `exactTableScore`. -/
def exactTableScore (key : Str) (words : List Str) : ℚ :=
  words.foldl (fun acc w => if strEndsWith key ('.' :: w) then acc + 6 else acc) 0

/-- `bigramScore` (space-joined pair as a dot-joined infix of the key). -/
def bigramScore (keyLower : Str) (bigrams : List Str) : ℚ :=
  bigrams.foldl (fun acc b =>
    if strContains keyLower (b.map (fun c => if c = ' ' then '.' else c)) then
      acc + 2
    else acc) 0

/-- `extractFieldScore` (1.5 per extracted field, plus the field list). -/
def extractFieldScore (jparse : Str → Option (Str × List Str))
    (query key : Str) (entry : EmbeddingEntry) : ℚ × List Str :=
  let extractedFields := ExtractFields jparse query key entry
  if extractedFields.isEmpty then (0, [])
  else ((extractedFields.length : ℚ) * 1.5, extractedFields)

/-- `sequenceScore`. -/
def sequenceScore (query key : Str) : ℚ :=
  if strContains query (str "interface") &&
      strContains query (str "statistics") then
    if strContains key (str "interface") && strContains key (str "statistics") then
      if strContains key (str "interface.statistics") then 8 else 4
    else 0
  else 0

/-- The `meaningfulDepth` count inside `pathDepthScore`: tokens past the
first three that are neither `state` nor `configure`. -/
def meaningfulDepth (keyTokens : List Str) : Nat :=
  keyTokens.enum.foldl (fun acc p =>
    if 2 < p.1 ∧ p.2 ≠ str "state" ∧ p.2 ≠ str "configure" then acc + 1
    else acc) 0

/-- `pathDepthScore`. -/
def pathDepthScore (keyTokens : List Str) : ℚ :=
  if keyTokens.length = 0 then 0
  else
    let md := meaningfulDepth keyTokens
    if md ≤ 2 then 20
    else if md ≤ 3 then 10
    else if md ≤ 4 then 5
    else -((md - 4 : Nat) : ℚ) * 2

/-- `protocolPenalty`. -/
def protocolPenalty (queryLower key : Str) : ℚ :=
  if strContains key (str "protocols") &&
      !strContains queryLower (str "protocol") &&
      !strContains queryLower (str "bgp") &&
      !strContains queryLower (str "ospf") &&
      !strContains queryLower (str "isis") then -10
  else 0

/-- `maintenancePenalty`. -/
def maintenancePenalty (queryLower key : Str) : ℚ :=
  if strContains key (str "maintenance") &&
      !strContains queryLower (str "maintenance") then -8
  else 0

/-- `errorQueryScore`. -/
def errorQueryScore (queryLower key : Str) (extractedFields : List Str) : ℚ :=
  if !strContains queryLower (str "error") then 0
  else if strContains key (str "statistics") &&
      extractedFields.any (fun f => strContains f (str "error")) then 10
  else 0

/-- `bandwidthScore`. -/
def bandwidthScore (queryLower key : Str) (extractedFields : List Str) : ℚ :=
  if strContains queryLower (str "bandwidth") &&
      strContains key (str "interface") &&
      extractedFields.any (fun f =>
        strContains f (str "octets") || strContains f (str "bandwidth")) then 10
  else 0

/-- `(*Engine).scoreEntry`: the additive composition of all sub-scores. -/
def scoreEntry (jparse : Str → Option (Str × List Str)) (key : Str)
    (entry : EmbeddingEntry) (query : Str) (words bigrams : List Str) : ℚ :=
  let keyTokens := Tokenize key
  let textTokens := Tokenize (entry.ReferenceText ++ ' ' :: entry.Text)
  let queryLower := strLower query
  let kw := keywordScore keyTokens textTokens words
  let score := kw.1 + descriptionScore jparse queryLower entry words
  let score := score +
    (if kw.2 = words.length ∧ 1 < words.length then (words.length : ℚ) * 3 else 0)
  let score := score +
    (if strContains queryLower (str "show") && strContains key (str ".state.")
      then 5 else 0)
  let keyLower := strLower key
  let score := score + interfaceScore key keyLower queryLower
  let score := score + bgpScore queryLower key
  let score := score + segmentMatchScore keyLower words
  let score := score + subinterfaceScore query key
  let score := score + exactTableScore key words
  let score := score + bigramScore keyLower bigrams
  let efs := extractFieldScore jparse query key entry
  let score := score + efs.1
  let score := score + sequenceScore query key
  let score := score + pathDepthScore keyTokens
  let score := score + protocolPenalty queryLower key
  let score := score + maintenancePenalty queryLower key
  let score := score + errorQueryScore queryLower key efs.2
  score + bandwidthScore queryLower key efs.2

/-! ### Search orchestrator (`engine.go`, `candidate_processing.go`,
`indexed_search.go`, `explanation.go`, `embedding/index.go`) -/

/-- Scored candidate (`scoredCandidate` / `candidate` in Go — two
structurally identical types). -/
structure Cand where
  key : Str
  score : ℚ
deriving DecidableEq

/-- The descending-score comparison used by every `sort.Slice` call. -/
def candGE (a b : Cand) : Prop := b.score ≤ a.score

instance : DecidableRel candGE :=
  fun a b => inferInstanceAs (Decidable (b.score ≤ a.score))

instance : IsTrans Cand candGE := ⟨fun _ _ _ h1 h2 => le_trans h2 h1⟩

instance : IsTotal Cand candGE := ⟨fun a b => le_total b.score a.score⟩

/-- `sort.Slice(candidates, score-descending)` (Go's sort is unstable, so
tie order is unspecified; determinised as insertion sort). -/
def candSort (l : List Cand) : List Cand := l.insertionSort candGE

def resGE (a b : SearchResult) : Prop := b.Score ≤ a.Score

instance : DecidableRel resGE :=
  fun a b => inferInstanceAs (Decidable (b.Score ≤ a.Score))

instance : IsTrans SearchResult resGE := ⟨fun _ _ _ h1 h2 => le_trans h2 h1⟩

instance : IsTotal SearchResult resGE := ⟨fun a b => le_total b.Score a.Score⟩

/-- `sort.Slice(results, score-descending)`. -/
def resSort (l : List SearchResult) : List SearchResult := l.insertionSort resGE

def BaseIndexMatchScore : ℚ := 10
def AllWordsMatchBonus : ℚ := 20
def SROSScoreThreshold : ℚ := 8
def DefaultScoreThreshold : ℚ := 10
def MinScoreThreshold : ℚ := 5
def MaxSearchResults : Nat := 10
def MaxCandidates : Nat := 20

/-- `hasAllWords`. -/
def hasAllWords (key : Str) (words : List Str) : Bool :=
  words.all (fun w => strContains (strLower key) w)

/-- `getScoreThreshold`. -/
def getScoreThreshold (key : Str) : ℚ :=
  if strContains key (str ".sros.") then SROSScoreThreshold
  else DefaultScoreThreshold

/-- `(*Engine).calculateCandidateScore`: inverted-index base score plus the
all-words bonus plus `scoreEntry`. -/
def calculateCandidateScore (jparse : Str → Option (Str × List Str))
    (db : EmbeddingDB) (key : Str) (matchCount : Nat) (query : Str)
    (words bigrams : List Str) : ℚ :=
  let entry := lookupTable db key
  let baseScore := (matchCount : ℚ) * BaseIndexMatchScore
  let baseScore := baseScore +
    (if hasAllWords key words then (words.length : ℚ) * AllWordsMatchBonus else 0)
  baseScore + scoreEntry jparse key entry query words bigrams

/-- `generateBigrams`.  For an empty word list the Go code executes
`make([]string, 0, len(words)-1)` with capacity `-1`, which panics at
runtime (`makeslice: cap out of range`); that crash is the `none` case. -/
def generateBigrams (words : List Str) : Option (List Str) :=
  match words with
  | [] => none
  | _ => some (List.zipWith (fun a b => a ++ ' ' :: b) words words.tail)

/-- `(*Engine).scoreCandidates` (threshold filter then descending sort;
the candidate map iteration is determinised to insertion order). -/
def scoreCandidates (jparse : Str → Option (Str × List Str))
    (db : EmbeddingDB) (candidateKeys : List (Str × Nat)) (query : Str)
    (words : List Str) : Option (List Cand) :=
  (generateBigrams words).map (fun bigrams =>
    candSort (candidateKeys.filterMap (fun p =>
      let score := calculateCandidateScore jparse db p.1 p.2 query words bigrams
      if getScoreThreshold p.1 < score then some ⟨p.1, score⟩ else none)))

/-- The loop body of `calculateAlarmScore`. -/
def alarmStep (s : ℚ) (w : Str) : ℚ :=
  let s := if w = str "alarm" ∨ w = str "alarms" then s + 10 else s
  if w = str "critical" ∨ w = str "major" ∨ w = str "minor" then s + 5
  else s

/-- `calculateAlarmScore` (+10 per alarm word, +5 per severity word). -/
def calculateAlarmScore (words : List Str) : ℚ :=
  words.foldl alarmStep 0

def alarmPath : Str := str ".namespace.alarms.v1.alarm"

def alarmEntryText : Str :=
  str "\x7b\"Description\":\"Active alarms in the system\",\"Fields\":[\"severity\",\"text\",\"time-created\",\"acknowledged\"]\x7d"

/-- The hardcoded alarm pseudo-entry of `checkAlarmQuery`. -/
def alarmEntry : EmbeddingEntry := ⟨[], alarmEntryText⟩

/-- The `models.EQLQuery` literal built for every retained result. -/
def buildEQLQuery (jparse : Str → Option (Str × List Str))
    (key query : Str) (entry : EmbeddingEntry) : EQLQuery :=
  ⟨key, ExtractFields jparse query key entry, GenerateWhereClause key query,
   ExtractOrderBy jparse query key entry, ExtractLimit query, ExtractDelta query⟩

/-- The `models.SearchResult` literal built by `checkAlarmQuery`. -/
def alarmResult (jparse : Str → Option (Str × List Str))
    (query : Str) (words : List Str) : SearchResult :=
  ⟨alarmPath, calculateAlarmScore words,
   buildEQLQuery jparse alarmPath query alarmEntry,
   str "Active alarms in the system",
   [str "severity", str "text", str "time-created", str "acknowledged"], []⟩

/-- `(*Engine).checkAlarmQuery`. -/
def checkAlarmQuery (jparse : Str → Option (Str × List Str))
    (query : Str) (words : List Str) : Option SearchResult :=
  if calculateAlarmScore words = 0 then none
  else some (alarmResult jparse query words)

/-- `fmt %.1f`.  Every reachable score is an exact multiple of 1/2, so
`x*10` is an integer and no rounding-mode question arises. -/
def fmtQ1 (x : ℚ) : Str :=
  let t : ℤ := round (x * 10)
  (if t < 0 then str "-" else []) ++
    natDigits (t.natAbs / 10) ++ '.' :: natDigits (t.natAbs % 10)

/-- `(*Engine).generateExplanation`. -/
def generateExplanation (key query : Str) (score : ℚ) : Str :=
  let words := Tokenize query
  let keyLower := strLower key
  let matched := words.filter (fun w => strContains keyLower w)
  if matched.length = 0 then
    str "Matched based on semantic similarity (score: " ++ fmtQ1 score ++ str ")"
  else if matched.length = words.length then
    str "Perfect match - all query terms found: " ++ joinCommaSpace matched ++
      str " (score: " ++ fmtQ1 score ++ str ")"
  else
    str "Partial match - found " ++ natDigits matched.length ++
      '/' :: natDigits words.length ++ str " terms: " ++ joinCommaSpace matched ++
      str " (score: " ++ fmtQ1 score ++ str ")"

/-- `parseEmbeddingInfo` (description and available fields; decode errors
degrade to empty values). -/
def parseEmbeddingInfo (jparse : Str → Option (Str × List Str))
    (text : Str) : Str × List Str :=
  match jparse text with
  | some info => info
  | none => ([], [])

/-- `(*Engine).createSearchResult` (full-search path). -/
def createSearchResult (jparse : Str → Option (Str × List Str))
    (db : EmbeddingDB) (c : Cand) (query : Str) : SearchResult :=
  let entry := lookupTable db c.key
  let info := parseEmbeddingInfo jparse entry.Text
  ⟨c.key, c.score, buildEQLQuery jparse c.key query entry, info.1, info.2, []⟩

/-- `(*Engine).convertCandidatesToResults` (append until 10 results). -/
def convertCandidatesToResults (jparse : Str → Option (Str × List Str))
    (db : EmbeddingDB) (query : Str) :
    List Cand → List SearchResult → List SearchResult
  | [], results => results
  | c :: rest, results =>
    if 10 ≤ results.length then results
    else convertCandidatesToResults jparse db query rest
      (results ++ [createSearchResult jparse db c query])

/-- `updateTopCandidates` (bounded top-20 retention with re-sorting). -/
def updateTopCandidates (st : List Cand × ℚ) (newCand : Cand) :
    List Cand × ℚ :=
  let cands := st.1
  let minScore := st.2
  if cands.length < MaxCandidates then
    let cands := cands ++ [newCand]
    if cands.length = MaxCandidates then
      let sorted := candSort cands
      (sorted, ((sorted.getLast?).map Cand.score).getD minScore)
    else (cands, minScore)
  else if minScore < newCand.score then
    let sorted := candSort (cands.set (MaxCandidates - 1) newCand)
    (sorted, ((sorted.getLast?).map Cand.score).getD minScore)
  else (cands, minScore)

/-- `(*Engine).findTopCandidates`.  The chunked worker pool scores every
table entry independently and funnels the survivors of the score-5
admission threshold into `collectTopCandidates`; the channel arrival
order is scheduler-dependent in Go and is determinised here to table
order. -/
def findTopCandidates (jparse : Str → Option (Str × List Str))
    (db : EmbeddingDB) (query : Str) (words bigrams : List Str) : List Cand :=
  let sent := db.Table.filterMap (fun p =>
    let score := scoreEntry jparse p.1 p.2 query words bigrams
    if MinScoreThreshold < score then some (⟨p.1, score⟩ : Cand) else none)
  (sent.foldl updateTopCandidates ([], MinScoreThreshold)).1

/-- `(*Engine).Search` (full exhaustive path). -/
def Search (jparse : Str → Option (Str × List Str)) (db : EmbeddingDB)
    (query : Str) : Option (List SearchResult) :=
  let words := ExpandSynonyms (Tokenize query)
  match generateBigrams words with
  | none => none
  | some bigrams =>
    let results := match checkAlarmQuery jparse query words with
      | some r => [r]
      | none => []
    let cands := findTopCandidates jparse db query words bigrams
    some (resSort (convertCandidatesToResults jparse db query cands results))

/-- `(*Engine).detectSROSDatabase`. -/
def detectSROSDatabase (db : EmbeddingDB) : Bool :=
  db.Table.any (fun p => strContains p.1 (str ".sros."))

/-- An inverted-index lookup (`e.db.InvertedIndex[word]`; a nil map reads
as absent). -/
def idxLookup (db : EmbeddingDB) (w : Str) : Option (List Str) :=
  match db.InvertedIndex with
  | some idx => assocGet idx w
  | none => none

/-- `candidateKeys[key]++`. -/
def bumpKey : List (Str × Nat) → Str → List (Str × Nat)
  | [], k => [(k, 1)]
  | (k', n) :: rest, k =>
    if k' = k then (k', n + 1) :: rest else (k', n) :: bumpKey rest k

/-- `(*Engine).addIndexedCandidates`. -/
def addIndexedCandidates (db : EmbeddingDB) (words : List Str)
    (acc : List (Str × Nat)) : List (Str × Nat) :=
  words.foldl (fun a w =>
    match idxLookup db w with
    | some keys => keys.foldl bumpKey a
    | none => a) acc

/-- `download.DetectPlatformFromQuery` (SROS keyword detection). -/
def srosQueryKeywords : List Str :=
  [str "sros", str "sr os", str "service router",
   str "7750", str "7450", str "7250", str "7950"]

def detectPlatformIsSROS (query : Str) : Bool :=
  srosQueryKeywords.any (fun kw => strContains (strLower query) kw)

/-- `shouldAddInterfaceCandidates`. -/
def shouldAddInterfaceCandidates (words : List Str) (query : Str)
    (isSROSDB : Bool) : Bool :=
  if !isSROSDB && !detectPlatformIsSROS query then false
  else words.any (fun w => w = str "interface" || w = str "interfaces")

/-- `(*Engine).addInterfaceCandidates` (index iteration determinised to
list order). -/
def addInterfaceCandidates (db : EmbeddingDB) (acc : List (Str × Nat)) :
    List (Str × Nat) :=
  (db.InvertedIndex.getD []).foldl (fun a p =>
    if strContains p.1 (str "interface") then p.2.foldl bumpKey a else a) acc

/-- `(*Engine).getCandidateKeys`. -/
def getCandidateKeys (db : EmbeddingDB) (words : List Str) (query : Str)
    (isSROSDB : Bool) : List (Str × Nat) :=
  let ck := addIndexedCandidates db words []
  if shouldAddInterfaceCandidates words query isSROSDB then
    addInterfaceCandidates db ck
  else ck

/-- `(*Engine).generateIndexedSearchResults` (top 10 candidates with
explanations; description/available-fields stay at their zero values). -/
def generateIndexedSearchResults (jparse : Str → Option (Str × List Str))
    (db : EmbeddingDB) (cands : List Cand) (query : Str) : List SearchResult :=
  (cands.take MaxSearchResults).map (fun c =>
    ⟨c.key, c.score, buildEQLQuery jparse c.key query (lookupTable db c.key),
     [], [], generateExplanation c.key query c.score⟩)

/-- `(*Engine).IndexedSearch`: inverted-index fast path with fallback to
the full `Search` when no candidates are found. -/
def IndexedSearch (jparse : Str → Option (Str × List Str))
    (db : EmbeddingDB) (query : Str) : Option (List SearchResult) :=
  let words := ExpandSynonyms (Tokenize query)
  let isSROSDB := detectSROSDatabase db
  let candidateKeys := getCandidateKeys db words query isSROSDB
  if candidateKeys.isEmpty then Search jparse db query
  else
    (scoreCandidates jparse db candidateKeys query words).map
      (fun cs => generateIndexedSearchResults jparse db cs query)

/-- `db.InvertedIndex[token] = append(..., key)`. -/
def appendIdx : List (Str × List Str) → Str → Str → List (Str × List Str)
  | [], w, k => [(w, [k])]
  | (w', ks) :: rest, w, k =>
    if w' = w then (w', ks ++ [k]) :: rest
    else (w', ks) :: appendIdx rest w k

/-- The tokens indexed for one entry: all key tokens, the first 51
reference-text tokens (`i > 50` breaks) and the first 31 text tokens
(`i > 30` breaks). -/
def indexEntryTokens (k : Str) (ent : EmbeddingEntry) : List Str :=
  Tokenize k ++ (Tokenize ent.ReferenceText).take 51 ++
    (Tokenize ent.Text).take 31

/-- The index-construction pass of `embedding.BuildInvertedIndex`
(table iteration determinised to list order), followed by the
per-word key deduplication pass. -/
def buildIndexList (table : List (Str × EmbeddingEntry)) :
    List (Str × List Str) :=
  let idx := table.foldl (fun acc p =>
    (indexEntryTokens p.1 p.2).foldl (fun a t => appendIdx a t p.1) acc) []
  idx.map (fun p => (p.1, dedupKeys p.2))

/-- `embedding.BuildInvertedIndex` (no-op when the index is non-nil and
non-empty). -/
def BuildInvertedIndex (db : EmbeddingDB) : EmbeddingDB :=
  match db.InvertedIndex with
  | some idx =>
    if idx.isEmpty then ⟨db.Table, some (buildIndexList db.Table)⟩ else db
  | none => ⟨db.Table, some (buildIndexList db.Table)⟩

/-! ### Specification-side definitions and concrete fixtures -/

/-- The path-depth bonus table exactly as the specification words it:
`d ≤ 2 ↦ 20`, `d ≤ 3 ↦ 10`, `d ≤ 4 ↦ 5`, otherwise `-2·(d-4)`. -/
def specPathDepthScore (d : Nat) : ℚ :=
  if d ≤ 2 then 20
  else if d ≤ 3 then 10
  else if d ≤ 4 then 5
  else -((d - 4 : Nat) : ℚ) * 2

/-- Number of `alarm`/`alarms` tokens (10 points each per the spec). -/
def alarmTokenCount (words : List Str) : Nat :=
  (words.filter (fun w => decide (w = str "alarm" ∨ w = str "alarms"))).length

/-- Number of severity tokens (5 points each per the spec). -/
def severityTokenCount (words : List Str) : Nat :=
  (words.filter (fun w =>
    decide (w = str "critical" ∨ w = str "major" ∨ w = str "minor"))).length

/-- A JSON decoder that fails on every input: the faithful abstraction of
`encoding/json.Unmarshal` for catalogs whose `Text` fields are not valid
JSON (here, empty strings). -/
def jparseNone : Str → Option (Str × List Str) := fun _ => none

/-- A JSON decoder that decodes exactly the hardcoded alarm-entry JSON
blob (which is what `encoding/json` produces on it) and fails elsewhere. -/
def jparseAlarm : Str → Option (Str × List Str) := fun t =>
  if t = alarmEntryText then
    some (str "Active alarms in the system",
      [str "severity", str "text", str "time-created", str "acknowledged"])
  else none

def kMem : Str := str ".system.memory"

/-- A one-entry catalog whose inverted index is exactly
`buildIndexList` of its table. -/
def dbMem : EmbeddingDB :=
  ⟨[(kMem, ⟨[], []⟩)], some [(str "system", [kMem]), (str "memory", [kMem])]⟩

/-- The empty catalog. -/
def dbEmpty : EmbeddingDB := ⟨[], none⟩

/-! ### Sanity checks mirroring the repository's unit tests
(`TestTokenize`, `TestExpandSynonyms`) and the spec's worked examples. -/

example : Tokenize (str "show interface statistics") =
    [str "show", str "interface", str "statistics"] := by decide

example : Tokenize (str "bgp.neighbor-state") =
    [str "bgp", str "neighbor", str "state"] := by decide

example : Tokenize (str "cpu_usage_percent") =
    [str "cpu", str "usage", str "percent"] := by decide

example : Tokenize (str "Show Interface Statistics") =
    [str "show", str "interface", str "statistics"] := by decide

example : Tokenize (str "show the interface statistics for the router") =
    [str "show", str "interface", str "statistics", str "router"] := by decide

example : Tokenize (str "the and or") =
    [str "the", str "and", str "or"] := by decide

example : ExpandSynonyms [str "stats", str "iface", str "temp"] =
    [str "statistics", str "interface", str "temperature"] := by decide

example : ExpandSynonyms [str "interfce", str "neighors", str "bandwith"] =
    [str "interface", str "neighbor", str "bandwidth"] := by decide

example : ExtractDelta (str "interface traffic on spine1 every 5 seconds") =
    some ⟨str "seconds", 5⟩ := by decide

example : ExtractNodeNames (str "leaf1 and leaf2 interfaces") =
    [str "leaf1", str "leaf2"] := by decide

example : dbMem.InvertedIndex = some (buildIndexList dbMem.Table) := by decide

/-! ### Supporting lemmas -/

/-- `dedupAux` yields a duplicate-free list avoiding the seen set. -/
theorem dedupAux_nodup_and_avoid :
    ∀ (l seen : List Str),
      (dedupAux l seen).Nodup ∧ ∀ x ∈ dedupAux l seen, x ∉ seen := by
  intro l
  induction l with
  | nil => intro seen; simp [dedupAux]
  | cons k rest ih =>
    intro seen
    unfold dedupAux
    by_cases hk : k ∈ seen
    · simpa [hk] using ih seen
    · simp only [hk, if_false]
      obtain ⟨hnd, havoid⟩ := ih (k :: seen)
      refine ⟨List.nodup_cons.mpr ⟨fun hmem => ?_, hnd⟩, ?_⟩
      · exact (havoid k hmem) (by simp)
      · intro x hx
        rcases List.mem_cons.mp hx with hx | hx
        · simpa [hx] using hk
        · intro hxs
          exact (havoid x hx) (List.mem_cons_of_mem _ hxs)

theorem dedupKeys_nodup (l : List Str) : (dedupKeys l).Nodup :=
  (dedupAux_nodup_and_avoid l []).1

/-! ### Claim C2 -/

/-- C2: the spec promises that `Search` completes without panicking on the
empty query.  The code does not: with an empty expanded token list,
`generateBigrams` executes `make([]string, 0, len(words)-1)` with capacity
`-1`, a runtime panic (`makeslice: cap out of range`), modelled as `none`.
This theorem evaluates the code at the failing input: for every catalog
and every JSON decoder, `Search` on the empty query crashes. -/
theorem c2_empty_query_crashes
    (jparse : Str → Option (Str × List Str)) (db : EmbeddingDB) :
    Search jparse db (str "") = none := rfl

/-! ### Claim C8 -/

/-- C8 counterexample: for a catalog key that tokenizes to the empty list
(such as the key `"."`), the depth count `d` is `0 ≤ 2`, so the claim
demands the large bonus 20, but `pathDepthScore` returns 0 via its
`pathDepth == 0` early exit. -/
theorem c8_counterexample :
    Tokenize (str ".") = [] ∧
    pathDepthScore (Tokenize (str ".")) = 0 ∧
    meaningfulDepth (Tokenize (str ".")) = 0 ∧
    specPathDepthScore (meaningfulDepth (Tokenize (str "."))) = 20 ∧
    pathDepthScore (Tokenize (str ".")) ≠
      specPathDepthScore (meaningfulDepth (Tokenize (str "."))) := by
  with_unfolding_all decide

/-- C8 (amended): for every key whose token list is non-empty, the
path-depth component equals the claimed function of `d`, the number of
tokenized segments beyond the first 3 that are neither `state` nor
`configure` (`d ≤ 2 ↦ 20`, `d ≤ 3 ↦ 10`, `d ≤ 4 ↦ 5`, else `-2·(d-4)`). -/
theorem c8_path_depth_score (keyTokens : List Str) (h : keyTokens ≠ []) :
    pathDepthScore keyTokens = specPathDepthScore (meaningfulDepth keyTokens) := by
  have hlen : keyTokens.length ≠ 0 := by
    simpa [List.length_eq_zero] using h
  unfold pathDepthScore specPathDepthScore
  rw [if_neg hlen]

/-- C8 witness: the amended theorem applied at a concrete token list. -/
theorem c8_witness :
    pathDepthScore [str "a"] = specPathDepthScore (meaningfulDepth [str "a"]) :=
  c8_path_depth_score [str "a"] (by decide)

/-! ### Claim C1 -/

/-- C1 counterexample: a concrete catalog and query on which the indexed
path and the full path examine the same candidate set (the single key of
the catalog) and return the same key ranking, yet assign it different
scores (79 on the indexed path versus 49 on the full path), refuting the
claimed score equality of the two paths. -/
theorem c1_counterexample :
    (getCandidateKeys dbMem (ExpandSynonyms (Tokenize (str "memory")))
        (str "memory") (detectSROSDatabase dbMem)).map Prod.fst = [kMem] ∧
    tableKeys dbMem = [kMem] ∧
    ((IndexedSearch jparseNone dbMem (str "memory")).getD []).map
        SearchResult.Key =
      ((Search jparseNone dbMem (str "memory")).getD []).map
        SearchResult.Key ∧
    ((IndexedSearch jparseNone dbMem (str "memory")).getD []).map
        SearchResult.Score = [79] ∧
    ((Search jparseNone dbMem (str "memory")).getD []).map
        SearchResult.Score = [49] ∧
    ((IndexedSearch jparseNone dbMem (str "memory")).getD []).map
        SearchResult.Score ≠
      ((Search jparseNone dbMem (str "memory")).getD []).map
        SearchResult.Score := by
  with_unfolding_all decide

/-- C1 (amended): the two paths share the `scoreEntry` component but are
offset: for every candidate key the indexed path's score equals the full
path's `scoreEntry` value plus an index base score of 10 per inverted-index
hit plus a 20-per-word bonus when the key contains every query word. -/
theorem c1_indexed_score_decomposition
    (jparse : Str → Option (Str × List Str)) (db : EmbeddingDB) (key : Str)
    (matchCount : Nat) (query : Str) (words bigrams : List Str) :
    calculateCandidateScore jparse db key matchCount query words bigrams =
      (matchCount : ℚ) * BaseIndexMatchScore
      + (if hasAllWords key words then
          (words.length : ℚ) * AllWordsMatchBonus
        else 0)
      + scoreEntry jparse key (lookupTable db key) query words bigrams := rfl

/-! ### Claim C6 -/

/-- C6: `ExtractLimit` tries the four patterns `top N`, `first N`,
`limit N`, `N results` in that priority order, accepting the first
pattern whose (first) captured number lies in `(0, 1000]`; with no such
pattern it falls back to 10 when the lowercased query contains `top` or
`highest` and to 0 otherwise; in particular the two concrete examples of
the spec hold. -/
theorem c6_extract_limit :
    ExtractLimit (str "top 5 processes by memory") = 5 ∧
    ExtractLimit (str "show interfaces") = 0 ∧
    (∀ q ds, scanKwNum (str "top ") (strLower q) = some ds →
      0 < digitsToNat ds → digitsToNat ds ≤ MaxLimitValue →
      ExtractLimit q = digitsToNat ds) ∧
    (∀ q ds, scanKwNum (str "top ") (strLower q) = none →
      scanKwNum (str "first ") (strLower q) = some ds →
      0 < digitsToNat ds → digitsToNat ds ≤ MaxLimitValue →
      ExtractLimit q = digitsToNat ds) ∧
    (∀ q, limitFromPatterns limitPatternScanners (strLower q) = none →
      (strContains (strLower q) (str "top") ||
        strContains (strLower q) (str "highest")) = true →
      ExtractLimit q = DefaultTopLimit) ∧
    (∀ q, limitFromPatterns limitPatternScanners (strLower q) = none →
      strContains (strLower q) (str "top") = false →
      strContains (strLower q) (str "highest") = false →
      ExtractLimit q = 0) := by
  refine ⟨by decide, by decide, ?_, ?_, ?_, ?_⟩
  · intro q ds h h1 h2
    simp [ExtractLimit, limitPatternScanners, limitFromPatterns, h, h1, h2]
  · intro q ds h0 h h1 h2
    simp [ExtractLimit, limitPatternScanners, limitFromPatterns, h0, h, h1, h2]
  · intro q hnone hcontains
    simp [ExtractLimit, hnone, hcontains]
  · intro q hnone h1 h2
    simp [ExtractLimit, hnone, h1, h2]

/-- C6 witness: the priority conjunct applied at a concrete query. -/
theorem c6_witness : ExtractLimit (str "top 7 flows") = 7 :=
  c6_extract_limit.2.2.1 (str "top 7 flows") (str "7")
    (by decide) (by decide) (by decide)

/-! ### Claim C3 -/

/-- `convertCandidatesToResults` never grows the result list past 10. -/
theorem convertCandidatesToResults_length_le
    (jparse : Str → Option (Str × List Str)) (db : EmbeddingDB) (q : Str) :
    ∀ (cands : List Cand) (results : List SearchResult),
      results.length ≤ 10 →
      (convertCandidatesToResults jparse db q cands results).length ≤ 10 := by
  intro cands
  induction cands with
  | nil => intro results h; simpa [convertCandidatesToResults] using h
  | cons c rest ih =>
    intro results h
    unfold convertCandidatesToResults
    by_cases h10 : 10 ≤ results.length
    · simpa [h10] using h
    · simp only [h10, if_false]
      refine ih _ ?_
      simp only [List.length_append, List.length_cons, List.length_nil]
      omega

/-- C3: every list `Search` returns has at most 10 elements and is sorted
in non-increasing order of the `Score` field. -/
theorem c3_search_top10_sorted
    (jparse : Str → Option (Str × List Str)) (db : EmbeddingDB) (q : Str)
    (rs : List SearchResult) (h : Search jparse db q = some rs) :
    rs.length ≤ 10 ∧ rs.Pairwise (fun a b => b.Score ≤ a.Score) := by
  unfold Search at h
  dsimp only [] at h
  split at h
  · exact absurd h (by simp)
  · simp only [Option.some.injEq] at h
    subst h
    constructor
    · rw [resSort, List.length_insertionSort]
      refine convertCandidatesToResults_length_le jparse db q _ _ ?_
      cases checkAlarmQuery jparse q (ExpandSynonyms (Tokenize q)) <;> simp
    · exact List.sorted_insertionSort resGE _

/-- C3 witness: the theorem applied to a concrete catalog and query. -/
theorem c3_witness :
    Search jparseNone dbEmpty (str "memory") = some [] ∧
    ([] : List SearchResult).length ≤ 10 ∧
    ([] : List SearchResult).Pairwise (fun a b => b.Score ≤ a.Score) :=
  ⟨by with_unfolding_all decide,
   c3_search_top10_sorted jparseNone dbEmpty (str "memory") []
     (by with_unfolding_all decide)⟩

/-! ### Claim C9 -/

/-- C9: `BuildInvertedIndex` is a no-op on a populated (non-nil,
non-empty) index, is idempotent, and the build pass leaves no duplicate
key in any word's key list. -/
theorem c9_build_inverted_index :
    (∀ (db : EmbeddingDB) (idx : List (Str × List Str)),
      db.InvertedIndex = some idx → idx ≠ [] → BuildInvertedIndex db = db) ∧
    (∀ db : EmbeddingDB,
      BuildInvertedIndex (BuildInvertedIndex db) = BuildInvertedIndex db) ∧
    (∀ (table : List (Str × EmbeddingEntry)) (w : Str) (ks : List Str),
      (w, ks) ∈ buildIndexList table → ks.Nodup) := by
  refine ⟨?_, ?_, ?_⟩
  · intro db idx h hne
    unfold BuildInvertedIndex
    rw [h]
    simp [List.isEmpty_iff, hne]
  · intro db
    cases hidx : db.InvertedIndex with
    | none =>
      by_cases he : (buildIndexList db.Table).isEmpty <;>
        simp [BuildInvertedIndex, hidx, he]
    | some idx =>
      by_cases he : idx.isEmpty <;>
        by_cases he2 : (buildIndexList db.Table).isEmpty <;>
          simp [BuildInvertedIndex, hidx, he, he2]
  · intro table w ks hmem
    unfold buildIndexList at hmem
    obtain ⟨p, _, heq⟩ := List.mem_map.mp hmem
    have h2 : dedupKeys p.2 = ks := congrArg Prod.snd heq
    exact h2 ▸ dedupKeys_nodup p.2

def db9 : EmbeddingDB := ⟨[], some [(str "w", [str "k"])]⟩

/-- C9 witness: both hypothesis-bearing parts applied at concrete inputs. -/
theorem c9_witness :
    BuildInvertedIndex db9 = db9 ∧ ([kMem] : List Str).Nodup :=
  ⟨c9_build_inverted_index.1 db9 [(str "w", [str "k"])] rfl (by decide),
   c9_build_inverted_index.2.2 [(kMem, ⟨[], []⟩)] (str "system") [kMem]
     (by decide)⟩

/-! ### Claim C7 -/

theorem isPrefixOf_self_append : ∀ (x t : Str), x.isPrefixOf (x ++ t) = true := by
  intro x
  induction x with
  | nil => intro t; simp [List.isPrefixOf]
  | cons c cs ih => intro t; simp [List.isPrefixOf, ih]

/-- `joinAnd` of a non-empty list starts with its first fragment. -/
theorem joinAnd_startsWith (x : Str) (xs : List Str) :
    strStartsWith (joinAnd (x :: xs)) x = true := by
  cases xs with
  | nil =>
    have := isPrefixOf_self_append x []
    simpa [joinAnd, strStartsWith] using this
  | cons y ys =>
    simpa [joinAnd, strStartsWith] using
      isPrefixOf_self_append x (str " and " ++ joinAnd (y :: ys))

/-- C7: on node-scoped table paths, `GenerateWhereClause` renders the
deduplicated extracted node names as one leading membership fragment
(`name in [...]` for two or more names, `name = "X"` for one), and the
spec's concrete example holds. -/
theorem c7_node_where_clause :
    (∀ tp q, strContains tp (str ".namespace.node.") = true →
      (ExtractNodeNames q).Nodup ∧
      (2 ≤ (ExtractNodeNames q).length →
        strStartsWith (GenerateWhereClause tp q)
          (str ".namespace.node.name in [" ++
            joinCommaSpace ((ExtractNodeNames q).map quoteGo) ++ str "]")
          = true) ∧
      (∀ n, ExtractNodeNames q = [n] →
        strStartsWith (GenerateWhereClause tp q)
          (str ".namespace.node.name = " ++ quoteGo n) = true)) ∧
    ExtractNodeNames (str "leaf1 and leaf2 interfaces") =
      [str "leaf1", str "leaf2"] ∧
    strStartsWith
      (GenerateWhereClause (str ".namespace.node.srl.interface")
        (str "leaf1 and leaf2 interfaces"))
      (str ".namespace.node.name in [\"leaf1\", \"leaf2\"]") = true := by
  refine ⟨?_, by decide, by decide⟩
  intro tp q htp
  refine ⟨?_, ?_, ?_⟩
  · unfold ExtractNodeNames
    exact dedupKeys_nodup _
  · intro h2
    have hcond : (decide (0 < (ExtractNodeNames q).length) &&
        strContains tp (str ".namespace.node.")) = true := by
      rw [htp]
      simp only [Bool.and_true, decide_eq_true_eq]
      omega
    have hrender : renderNodeClause (ExtractNodeNames q) =
        str ".namespace.node.name in [" ++
          joinCommaSpace ((ExtractNodeNames q).map quoteGo) ++ str "]" := by
      rcases hns : ExtractNodeNames q with _ | ⟨a, _ | ⟨b, bs⟩⟩
      · rw [hns] at h2; simp at h2
      · rw [hns] at h2; simp at h2
      · rfl
    unfold GenerateWhereClause
    dsimp only []
    rw [hcond, if_pos rfl, hrender, List.singleton_append]
    exact joinAnd_startsWith _ _
  · intro n hn
    have hcond : (decide (0 < (ExtractNodeNames q).length) &&
        strContains tp (str ".namespace.node.")) = true := by
      rw [htp, hn]
      simp
    have hrender : renderNodeClause (ExtractNodeNames q) =
        str ".namespace.node.name = " ++ quoteGo n := by
      rw [hn]; rfl
    unfold GenerateWhereClause
    dsimp only []
    rw [hcond, if_pos rfl, hrender, List.singleton_append]
    exact joinAnd_startsWith _ _

/-- C7 witness: the general part applied at the spec's concrete inputs. -/
theorem c7_witness :
    strContains (str ".namespace.node.srl.interface")
      (str ".namespace.node.") = true ∧
    (ExtractNodeNames (str "leaf1 and leaf2 interfaces")).Nodup ∧
    strStartsWith
      (GenerateWhereClause (str ".namespace.node.srl.interface")
        (str "leaf1 and leaf2 interfaces"))
      (str ".namespace.node.name in [" ++
        joinCommaSpace ((ExtractNodeNames
          (str "leaf1 and leaf2 interfaces")).map quoteGo) ++ str "]")
      = true :=
  ⟨by decide,
   (c7_node_where_clause.1 (str ".namespace.node.srl.interface")
     (str "leaf1 and leaf2 interfaces") (by decide)).1,
   (c7_node_where_clause.1 (str ".namespace.node.srl.interface")
     (str "leaf1 and leaf2 interfaces") (by decide)).2.1 (by decide)⟩

/-! ### Claim C4 -/

/-- Closed form of the `calculateAlarmScore` fold. -/
theorem alarmStep_foldl (words : List Str) : ∀ s : ℚ,
    words.foldl alarmStep s =
      s + 10 * (alarmTokenCount words : ℚ) +
        5 * (severityTokenCount words : ℚ) := by
  induction words with
  | nil => intro s; simp [alarmTokenCount, severityTokenCount]
  | cons w ws ih =>
    intro s
    simp only [List.foldl_cons, ih]
    by_cases h1 : (w = str "alarm" ∨ w = str "alarms") <;>
      by_cases h2 : (w = str "critical" ∨ w = str "major" ∨ w = str "minor") <;>
        · simp only [alarmStep, alarmTokenCount, severityTokenCount,
            List.filter_cons, h1, h2, decide_True, decide_False,
            iff_true, iff_false, if_true, if_false, List.length_cons]
          push_cast
          ring

/-- `calculateAlarmScore` is 10 per alarm token plus 5 per severity token. -/
theorem calculateAlarmScore_eq (words : List Str) :
    calculateAlarmScore words =
      10 * (alarmTokenCount words : ℚ) +
        5 * (severityTokenCount words : ℚ) := by
  simpa [calculateAlarmScore] using alarmStep_foldl words 0

/-- The initial result list is a prefix of `convertCandidatesToResults`. -/
theorem convertCandidatesToResults_prefix
    (jparse : Str → Option (Str × List Str)) (db : EmbeddingDB) (q : Str) :
    ∀ (cands : List Cand) (results : List SearchResult),
      results <+: convertCandidatesToResults jparse db q cands results := by
  intro cands
  induction cands with
  | nil => intro results; simp [convertCandidatesToResults]
  | cons c rest ih =>
    intro results
    unfold convertCandidatesToResults
    by_cases h10 : 10 ≤ results.length
    · simp [h10]
    · simp only [h10, if_false]
      exact List.IsPrefix.trans (List.prefix_append _ _) (ih _)

/-- C4: a query whose expanded token list contains `alarm` or `alarms`
always surfaces the fixed alarm pseudo-table result with the ad-hoc score
(10 per alarm token, 5 per severity token), which is strictly positive;
conversely a zero ad-hoc score synthesizes no alarm pseudo-result. -/
theorem c4_alarm_pseudo_result :
    (∀ (jparse : Str → Option (Str × List Str)) (db : EmbeddingDB) (q : Str),
      (str "alarm" ∈ ExpandSynonyms (Tokenize q) ∨
        str "alarms" ∈ ExpandSynonyms (Tokenize q)) →
      ∃ rs, Search jparse db q = some rs ∧
        ∃ r ∈ rs, r.Key = alarmPath ∧
          r.Score =
            10 * (alarmTokenCount (ExpandSynonyms (Tokenize q)) : ℚ) +
              5 * (severityTokenCount (ExpandSynonyms (Tokenize q)) : ℚ) ∧
          0 < r.Score) ∧
    (∀ (jparse : Str → Option (Str × List Str)) (q : Str) (words : List Str),
      calculateAlarmScore words = 0 → checkAlarmQuery jparse q words = none) := by
  constructor
  · intro jparse db q hmem
    set words := ExpandSynonyms (Tokenize q) with hwords
    have hcount : 1 ≤ alarmTokenCount words := by
      rcases hmem with h | h <;>
        exact List.length_pos_of_mem
          (List.mem_filter.mpr ⟨h, by simp⟩)
    have hscore := calculateAlarmScore_eq words
    have hpos : 0 < calculateAlarmScore words := by
      rw [hscore]
      have ha : (1 : ℚ) ≤ (alarmTokenCount words : ℚ) := by exact_mod_cast hcount
      have hb : (0 : ℚ) ≤ (severityTokenCount words : ℚ) := by positivity
      linarith
    have hca : checkAlarmQuery jparse q words =
        some (alarmResult jparse q words) := by
      unfold checkAlarmQuery
      rw [if_neg (ne_of_gt hpos)]
    have hwne : words ≠ [] := by
      rcases hmem with h | h <;> exact List.ne_nil_of_mem h
    obtain ⟨bg, hbg⟩ : ∃ bg, generateBigrams words = some bg := by
      cases hw : words with
      | nil => exact absurd hw hwne
      | cons a l => exact ⟨_, rfl⟩
    refine ⟨resSort (convertCandidatesToResults jparse db q
        (findTopCandidates jparse db q words bg) [alarmResult jparse q words]),
      ?_, alarmResult jparse q words, ?_, rfl, ?_, ?_⟩
    · unfold Search
      dsimp only []
      rw [← hwords, hbg]
      dsimp only []
      rw [hca]
    · have h1 : alarmResult jparse q words ∈ [alarmResult jparse q words] := by
        simp
      have h2 := convertCandidatesToResults_prefix jparse db q
        (findTopCandidates jparse db q words bg) [alarmResult jparse q words]
      have h3 := h2.subset h1
      exact (List.Perm.mem_iff (List.perm_insertionSort resGE _)).mpr h3
    · exact hscore
    · exact hpos
  · intro jparse q words h
    unfold checkAlarmQuery
    rw [if_pos h]

/-- C4 witness: the theorem applied to the query `"alarms"` against the
empty catalog (and the converse part at a scoreless token list). -/
theorem c4_witness :
    (str "alarm" ∈ ExpandSynonyms (Tokenize (str "alarms")) ∨
      str "alarms" ∈ ExpandSynonyms (Tokenize (str "alarms"))) ∧
    (∃ rs, Search jparseAlarm dbEmpty (str "alarms") = some rs ∧
      ∃ r ∈ rs, r.Key = alarmPath ∧
        r.Score =
          10 * (alarmTokenCount (ExpandSynonyms (Tokenize (str "alarms"))) : ℚ) +
            5 * (severityTokenCount (ExpandSynonyms (Tokenize (str "alarms"))) : ℚ) ∧
        0 < r.Score) ∧
    checkAlarmQuery jparseAlarm (str "x") [str "x"] = none :=
  ⟨Or.inl (by decide),
   c4_alarm_pseudo_result.1 jparseAlarm dbEmpty (str "alarms")
     (Or.inl (by decide)),
   c4_alarm_pseudo_result.2 jparseAlarm (str "x") [str "x"]
     (by with_unfolding_all decide)⟩

/-! ### Claim C10 -/

/-- `bumpKey` introduces no key other than the bumped one. -/
theorem keys_bumpKey :
    ∀ (a : List (Str × Nat)) (k x : Str),
      x ∈ (bumpKey a k).map Prod.fst → x ∈ a.map Prod.fst ∨ x = k := by
  intro a
  induction a with
  | nil =>
    intro k x hx
    simp [bumpKey] at hx
    right; exact hx
  | cons q rest ih =>
    intro k x hx
    obtain ⟨k', n⟩ := q
    by_cases hkk : k' = k
    · simp only [bumpKey, hkk, if_true] at hx
      simp only [List.map_cons, List.mem_cons] at hx ⊢
      tauto
    · simp only [bumpKey, hkk, if_false] at hx
      simp only [List.map_cons, List.mem_cons] at hx ⊢
      rcases hx with hx | hx
      · tauto
      · rcases ih k x hx with h | h <;> tauto

/-- A fold of `bumpKey` only ever adds the folded keys. -/
theorem keys_foldl_bumpKey :
    ∀ (ks : List Str) (a : List (Str × Nat)) (x : Str),
      x ∈ (ks.foldl bumpKey a).map Prod.fst →
      x ∈ a.map Prod.fst ∨ x ∈ ks := by
  intro ks
  induction ks with
  | nil => intro a x hx; left; simpa using hx
  | cons k ks ih =>
    intro a x hx
    simp only [List.foldl_cons] at hx
    rcases ih (bumpKey a k) x hx with h | h
    · rcases keys_bumpKey a k x h with h2 | h2
      · left; exact h2
      · right; simp [h2]
    · right; simp [h]

/-- Keys produced by `addIndexedCandidates` come from inverted-index
lists (or the initial accumulator). -/
theorem keys_addIndexedCandidates (db : EmbeddingDB) :
    ∀ (words : List Str) (acc : List (Str × Nat)) (x : Str),
      x ∈ (addIndexedCandidates db words acc).map Prod.fst →
      x ∈ acc.map Prod.fst ∨
        ∃ w ks, idxLookup db w = some ks ∧ x ∈ ks := by
  intro words
  induction words with
  | nil => intro acc x hx; left; simpa [addIndexedCandidates] using hx
  | cons w ws ih =>
    intro acc x hx
    unfold addIndexedCandidates at hx
    simp only [List.foldl_cons] at hx
    cases hl : idxLookup db w with
    | none =>
      rw [hl] at hx
      exact ih acc x hx
    | some ks =>
      rw [hl] at hx
      rcases ih _ x hx with h | h
      · rcases keys_foldl_bumpKey ks acc x h with h2 | h2
        · left; exact h2
        · right; exact ⟨w, ks, hl, h2⟩
      · right; exact h

/-- Keys produced by the `addInterfaceCandidates` fold come from
inverted-index entry lists (or the initial accumulator). -/
theorem keys_foldl_interface :
    ∀ (l : List (Str × List Str)) (acc : List (Str × Nat)) (x : Str),
      x ∈ (l.foldl (fun a p =>
        if strContains p.1 (str "interface") then p.2.foldl bumpKey a
        else a) acc).map Prod.fst →
      x ∈ acc.map Prod.fst ∨ ∃ w ks, (w, ks) ∈ l ∧ x ∈ ks := by
  intro l
  induction l with
  | nil => intro acc x hx; left; simpa using hx
  | cons p ps ih =>
    intro acc x hx
    simp only [List.foldl_cons] at hx
    by_cases hp : strContains p.1 (str "interface") = true
    · rw [if_pos hp] at hx
      rcases ih _ x hx with h | h
      · rcases keys_foldl_bumpKey p.2 acc x h with h2 | h2
        · left; exact h2
        · right; exact ⟨p.1, p.2, by simp, h2⟩
      · obtain ⟨w, ks, hmem, hxk⟩ := h
        right; exact ⟨w, ks, List.mem_cons_of_mem _ hmem, hxk⟩
    · rw [if_neg hp] at hx
      rcases ih _ x hx with h | h
      · left; exact h
      · obtain ⟨w, ks, hmem, hxk⟩ := h
        right; exact ⟨w, ks, List.mem_cons_of_mem _ hmem, hxk⟩

theorem assocGet_mem {α : Type} :
    ∀ (l : List (Str × α)) (w : Str) (v : α),
      assocGet l w = some v → (w, v) ∈ l := by
  intro l
  induction l with
  | nil => intro w v h; simp [assocGet] at h
  | cons q rest ih =>
    intro w v h
    obtain ⟨k, u⟩ := q
    by_cases hk : k = w
    · simp only [assocGet, hk, if_true, Option.some.injEq] at h
      subst hk; subst h; simp
    · simp only [assocGet, hk, if_false] at h
      exact List.mem_cons_of_mem _ (ih w v h)

theorem idxLookup_mem (db : EmbeddingDB) (w : Str) (ks : List Str)
    (h : idxLookup db w = some ks) : (w, ks) ∈ db.InvertedIndex.getD [] := by
  unfold idxLookup at h
  cases hidx : db.InvertedIndex with
  | none => rw [hidx] at h; simp at h
  | some idx =>
    rw [hidx] at h
    simpa [hidx] using assocGet_mem idx w ks h

/-- Every candidate key surfaced by `getCandidateKeys` occurs in some
inverted-index key list. -/
theorem keys_getCandidateKeys (db : EmbeddingDB) (words : List Str)
    (q : Str) (isSROSDB : Bool) (x : Str)
    (hx : x ∈ (getCandidateKeys db words q isSROSDB).map Prod.fst) :
    ∃ w ks, (w, ks) ∈ db.InvertedIndex.getD [] ∧ x ∈ ks := by
  unfold getCandidateKeys at hx
  dsimp only [] at hx
  by_cases hadd : shouldAddInterfaceCandidates words q isSROSDB = true
  · rw [if_pos hadd] at hx
    unfold addInterfaceCandidates at hx
    rcases keys_foldl_interface _ _ x hx with h | h
    · rcases keys_addIndexedCandidates db words [] x h with h2 | h2
      · simp at h2
      · obtain ⟨w, ks, hl, hxk⟩ := h2
        exact ⟨w, ks, idxLookup_mem db w ks hl, hxk⟩
    · exact h
  · rw [if_neg hadd] at hx
    rcases keys_addIndexedCandidates db words [] x hx with h2 | h2
    · simp at h2
    · obtain ⟨w, ks, hl, hxk⟩ := h2
      exact ⟨w, ks, idxLookup_mem db w ks hl, hxk⟩

/-- With no query words there are no candidates. -/
theorem getCandidateKeys_nil (db : EmbeddingDB) (q : Str) (isSROSDB : Bool) :
    getCandidateKeys db [] q isSROSDB = [] := by
  unfold getCandidateKeys shouldAddInterfaceCandidates addIndexedCandidates
  simp [ite_self]

theorem dedupAux_subset : ∀ (l seen : List Str), ∀ x ∈ dedupAux l seen, x ∈ l := by
  intro l
  induction l with
  | nil => intro seen x hx; simp [dedupAux] at hx
  | cons k rest ih =>
    intro seen x hx
    unfold dedupAux at hx
    by_cases hk : k ∈ seen
    · rw [if_pos hk] at hx
      exact List.mem_cons_of_mem _ (ih seen x hx)
    · rw [if_neg hk] at hx
      rcases List.mem_cons.mp hx with h | h
      · simp [h]
      · exact List.mem_cons_of_mem _ (ih _ x h)

/-- `appendIdx` only ever adds the appended key to a key list. -/
theorem mem_appendIdx :
    ∀ (a : List (Str × List Str)) (t k w : Str) (ks : List Str) (x : Str),
      (w, ks) ∈ appendIdx a t k → x ∈ ks →
      (∃ ks0, (w, ks0) ∈ a ∧ x ∈ ks0) ∨ x = k := by
  intro a
  induction a with
  | nil =>
    intro t k w ks x hm hx
    simp only [appendIdx, List.mem_singleton, Prod.mk.injEq] at hm
    rw [hm.2] at hx
    right
    simpa using hx
  | cons q rest ih =>
    intro t k w ks x hm hx
    obtain ⟨w', ks'⟩ := q
    by_cases hw' : w' = t
    · rw [show appendIdx ((w', ks') :: rest) t k =
        if w' = t then (w', ks' ++ [k]) :: rest
        else (w', ks') :: appendIdx rest t k from rfl, if_pos hw'] at hm
      rcases List.mem_cons.mp hm with h | h
      · obtain ⟨hww, hkk⟩ := Prod.mk.injEq .. |>.mp h.symm
        rw [← hkk] at hx
        rcases List.mem_append.mp hx with h2 | h2
        · left
          exact ⟨ks', by simp [hww], h2⟩
        · right
          simpa using h2
      · left
        exact ⟨ks, List.mem_cons_of_mem _ h, hx⟩
    · rw [show appendIdx ((w', ks') :: rest) t k =
        if w' = t then (w', ks' ++ [k]) :: rest
        else (w', ks') :: appendIdx rest t k from rfl, if_neg hw'] at hm
      rcases List.mem_cons.mp hm with h | h
      · left
        exact ⟨ks, by rw [h]; simp, hx⟩
      · rcases ih t k w ks x h hx with h2 | h2
        · obtain ⟨ks0, hks0, hx0⟩ := h2
          left
          exact ⟨ks0, List.mem_cons_of_mem _ hks0, hx0⟩
        · right
          exact h2

/-- Indexing the token list of one entry only ever adds that entry's key. -/
theorem keys_foldl_appendIdx :
    ∀ (toks : List Str) (key : Str) (acc : List (Str × List Str))
      (w : Str) (ks : List Str) (x : Str),
      (w, ks) ∈ toks.foldl (fun a t => appendIdx a t key) acc → x ∈ ks →
      (∃ ks0, (w, ks0) ∈ acc ∧ x ∈ ks0) ∨ x = key := by
  intro toks
  induction toks with
  | nil =>
    intro key acc w ks x hm hx
    left
    exact ⟨ks, by simpa using hm, hx⟩
  | cons t ts ih =>
    intro key acc w ks x hm hx
    simp only [List.foldl_cons] at hm
    rcases ih key (appendIdx acc t key) w ks x hm hx with ⟨ks0, hks0, hx0⟩ | h
    · exact mem_appendIdx acc t key w ks0 x hks0 hx0
    · right
      exact h

/-- The index-construction fold only stores keys of the processed table. -/
theorem keys_buildIndexFold :
    ∀ (table : List (Str × EmbeddingEntry)) (acc : List (Str × List Str))
      (w : Str) (ks : List Str) (x : Str),
      (w, ks) ∈ table.foldl (fun acc p =>
        (indexEntryTokens p.1 p.2).foldl (fun a t => appendIdx a t p.1) acc)
        acc →
      x ∈ ks →
      (∃ ks0, (w, ks0) ∈ acc ∧ x ∈ ks0) ∨ x ∈ table.map Prod.fst := by
  intro table
  induction table with
  | nil =>
    intro acc w ks x hm hx
    left
    exact ⟨ks, by simpa using hm, hx⟩
  | cons p ps ih =>
    intro acc w ks x hm hx
    simp only [List.foldl_cons] at hm
    rcases ih _ w ks x hm hx with ⟨ks0, hks0, hx0⟩ | h
    · rcases keys_foldl_appendIdx (indexEntryTokens p.1 p.2) p.1 acc
        w ks0 x hks0 hx0 with h2 | h2
      · left
        exact h2
      · right
        rw [h2, List.map_cons]
        exact List.mem_cons_self _ _
    · right
      exact List.mem_cons_of_mem _ h

/-- Every key stored by the index build is a table key: the well-formed
index invariant established by `BuildInvertedIndex`. -/
theorem buildIndexList_keys
    (table : List (Str × EmbeddingEntry)) (w : Str) (ks : List Str)
    (hm : (w, ks) ∈ buildIndexList table) :
    ∀ x ∈ ks, x ∈ table.map Prod.fst := by
  intro x hx
  unfold buildIndexList at hm
  obtain ⟨p, hp, heq⟩ := List.mem_map.mp hm
  have hks : dedupKeys p.2 = ks := congrArg Prod.snd heq
  rw [← hks] at hx
  have hx2 : x ∈ p.2 := dedupAux_subset p.2 [] x hx
  rcases keys_buildIndexFold table [] p.1 p.2 x hp hx2 with ⟨_, h0, _⟩ | h
  · simp at h0
  · exact h

/-- C10: the index built by `BuildInvertedIndex` only lists table keys
(the well-formed index invariant), and whenever candidate generation from
such a well-formed inverted index is non-empty, `IndexedSearch` succeeds
and returns only keys of the catalog's table; in particular the
synthesized alarm pseudo-result never appears on this path when the alarm
table is not a real table entry. -/
theorem c10_indexed_results_from_table :
    (∀ (table : List (Str × EmbeddingEntry)) (w : Str) (ks : List Str),
      (w, ks) ∈ buildIndexList table → ∀ k ∈ ks, k ∈ table.map Prod.fst) ∧
    ∀ (jparse : Str → Option (Str × List Str)) (db : EmbeddingDB) (q : Str),
      (∀ w ks, (w, ks) ∈ db.InvertedIndex.getD [] →
        ∀ k ∈ ks, k ∈ tableKeys db) →
      getCandidateKeys db (ExpandSynonyms (Tokenize q)) q
        (detectSROSDatabase db) ≠ [] →
      ∃ rs, IndexedSearch jparse db q = some rs ∧
        ∀ r ∈ rs, r.Key ∈ tableKeys db ∧
          (alarmPath ∉ tableKeys db → r.Key ≠ alarmPath) := by
  refine ⟨fun table w ks hm => buildIndexList_keys table w ks hm, ?_⟩
  intro jparse db q hwf hne
  set words := ExpandSynonyms (Tokenize q) with hwords
  set ck := getCandidateKeys db words q (detectSROSDatabase db) with hck
  have hwne : words ≠ [] := by
    intro h
    exact hne (by rw [hck, h, getCandidateKeys_nil])
  obtain ⟨bg, hbg⟩ : ∃ bg, generateBigrams words = some bg := by
    cases hw : words with
    | nil => exact absurd hw hwne
    | cons a l => exact ⟨_, rfl⟩
  have hckE : ck.isEmpty = false := by
    cases hl : ck with
    | nil => exact absurd hl hne
    | cons a l => rfl
  set scored := candSort (ck.filterMap (fun p =>
    let score := calculateCandidateScore jparse db p.1 p.2 q words bg
    if getScoreThreshold p.1 < score then some (⟨p.1, score⟩ : Cand)
    else none)) with hscored
  have hsc : scoreCandidates jparse db ck q words = some scored := by
    unfold scoreCandidates
    rw [hbg]
    rfl
  refine ⟨generateIndexedSearchResults jparse db scored q, ?_, ?_⟩
  · unfold IndexedSearch
    dsimp only []
    rw [← hwords, ← hck, hckE, if_neg (by decide : ¬ (false = true))]
    rw [hsc]
    rfl
  · intro r hr
    unfold generateIndexedSearchResults at hr
    obtain ⟨c, hc, hrc⟩ := List.mem_map.mp hr
    have hc2 : c ∈ scored := List.take_subset _ _ hc
    rw [hscored] at hc2
    have hc3 := (List.Perm.mem_iff (List.perm_insertionSort candGE _)).mp hc2
    obtain ⟨p, hp, hpc⟩ := List.mem_filterMap.mp hc3
    have hkey : c.key = p.1 := by
      dsimp only [] at hpc
      by_cases hth : getScoreThreshold p.1 <
          calculateCandidateScore jparse db p.1 p.2 q words bg
      · rw [if_pos hth] at hpc
        cases hpc
        rfl
      · rw [if_neg hth] at hpc
        cases hpc
    have hkey2 : r.Key = p.1 := by rw [← hrc]; exact hkey
    have hpk : p.1 ∈ ck.map Prod.fst := List.mem_map.mpr ⟨p, hp, rfl⟩
    obtain ⟨w, ks, hwk, hxk⟩ := keys_getCandidateKeys db words q _ p.1 hpk
    have htab : p.1 ∈ tableKeys db := hwf w ks hwk p.1 hxk
    refine ⟨hkey2 ▸ htab, fun halarm => ?_⟩
    rw [hkey2]
    intro heq
    exact halarm (heq ▸ htab)

/-- C10 witness: the theorem applied to a concrete well-indexed catalog. -/
theorem c10_witness :
    ∃ rs, IndexedSearch jparseNone dbMem (str "memory") = some rs ∧
      ∀ r ∈ rs, r.Key ∈ tableKeys dbMem ∧
        (alarmPath ∉ tableKeys dbMem → r.Key ≠ alarmPath) :=
  c10_indexed_results_from_table.2 jparseNone dbMem (str "memory")
    (by
      intro w ks h k hk
      simp only [dbMem, Option.getD_some, List.mem_cons,
        List.not_mem_nil, or_false] at h
      rcases h with h | h <;>
        · cases h
          simp only [List.mem_singleton] at hk
          subst hk
          decide)
    (by decide)

/-! ### Claim C5 -/

theorem charLower_charLower (c : Char) :
    charLower (charLower c) = charLower c := by
  unfold charLower
  cases hf : lowerPairs.find? (fun p => p.1 == c) with
  | none => simp [hf]
  | some p =>
    have hmem := List.mem_of_find?_eq_some hf
    have hone : lowerPairs.find? (fun q => q.1 == p.2) = none := by
      rw [List.find?_eq_none]
      intro q hq
      have hall : ∀ x ∈ lowerPairs, ∀ y ∈ lowerPairs,
          ¬ (y.1 == x.2) = true := by decide
      exact hall p hmem q hq
    simp [hf, hone]

theorem charLower_space : charLower ' ' = ' ' := by decide

theorem sepToSpace_space : sepToSpace ' ' = ' ' := by decide

theorem sepToSpace_cases (x : Char) : sepToSpace x = ' ' ∨ sepToSpace x = x := by
  unfold sepToSpace
  split_ifs <;> simp

theorem sepToSpace_sepToSpace (x : Char) :
    sepToSpace (sepToSpace x) = sepToSpace x := by
  rcases sepToSpace_cases x with h | h
  · rw [h, sepToSpace_space]
  · rw [h, h]

theorem charLower_sepToSpace_charLower (c : Char) :
    charLower (sepToSpace (charLower c)) = sepToSpace (charLower c) := by
  rcases sepToSpace_cases (charLower c) with h | h
  · rw [h, charLower_space]
  · rw [h, charLower_charLower]

/-- Tokens produced by the `goFields` loop are non-empty, contain no
whitespace, and inherit any property of the non-space source characters. -/
theorem goFieldsAux_tokens {p : Char → Prop} :
    ∀ (l acc : Str),
      (∀ c ∈ l, isGoSpace c = false → p c) →
      (∀ c ∈ acc, p c ∧ isGoSpace c = false) →
      ∀ t ∈ goFieldsAux l acc,
        t ≠ [] ∧ ∀ c ∈ t, p c ∧ isGoSpace c = false := by
  intro l
  induction l with
  | nil =>
    intro acc _ hacc t ht
    unfold goFieldsAux at ht
    by_cases hae : acc.isEmpty
    · rw [if_pos hae] at ht
      simp at ht
    · rw [if_neg hae, List.mem_singleton] at ht
      subst ht
      refine ⟨?_, ?_⟩
      · simp only [ne_eq, List.reverse_eq_nil_iff]
        intro h
        rw [h] at hae
        exact hae rfl
      · intro c hc
        exact hacc c (List.mem_reverse.mp hc)
  | cons hd tl ih =>
    intro acc hl hacc t ht
    have hl' : ∀ c ∈ tl, isGoSpace c = false → p c :=
      fun c hc => hl c (List.mem_cons_of_mem _ hc)
    unfold goFieldsAux at ht
    by_cases hs : isGoSpace hd = true
    · rw [if_pos hs] at ht
      by_cases hae : acc.isEmpty
      · rw [if_pos hae] at ht
        exact ih [] hl' (by simp) t ht
      · rw [if_neg hae] at ht
        rcases List.mem_cons.mp ht with ht | ht
        · subst ht
          refine ⟨?_, ?_⟩
          · simp only [ne_eq, List.reverse_eq_nil_iff]
            intro h
            rw [h] at hae
            exact hae rfl
          · intro c hc
            exact hacc c (List.mem_reverse.mp hc)
        · exact ih [] hl' (by simp) t ht
    · rw [if_neg hs] at ht
      refine ih (hd :: acc) hl' ?_ t ht
      intro c hc
      rcases List.mem_cons.mp hc with hc | hc
      · subst hc
        exact ⟨hl c (by simp) (by simpa using hs), by simpa using hs⟩
      · exact hacc c hc

/-- Characters of a space-joined token list are spaces or token characters. -/
theorem mem_joinSpace :
    ∀ (T : List Str) (c : Char), c ∈ joinSpace T →
      c = ' ' ∨ ∃ t ∈ T, c ∈ t := by
  intro T
  induction T with
  | nil => intro c hc; simp [joinSpace] at hc
  | cons t ts ih =>
    cases ts with
    | nil =>
      intro c hc
      right
      exact ⟨t, by simp, by simpa [joinSpace] using hc⟩
    | cons u us =>
      intro c hc
      rw [show joinSpace (t :: u :: us) = t ++ ' ' :: joinSpace (u :: us)
        from rfl] at hc
      rcases List.mem_append.mp hc with h | h
      · right; exact ⟨t, by simp, h⟩
      · rcases List.mem_cons.mp h with h | h
        · left; exact h
        · rcases ih c h with h | ⟨t', ht', hc'⟩
          · left; exact h
          · right; exact ⟨t', by simp [ht'], hc'⟩

theorem strMap_id {f : Char → Char} :
    ∀ l : Str, (∀ c ∈ l, f c = c) → l.map f = l := by
  intro l
  induction l with
  | nil => intro _; rfl
  | cons c cs ih =>
    intro h
    simp only [List.map_cons, h c (by simp), ih (fun d hd => h d (by simp [hd]))]

/-- Feeding a whitespace-free token into the `goFields` loop pushes it
(reversed) onto the accumulator. -/
theorem goFieldsAux_append_token :
    ∀ (t rest acc : Str), (∀ c ∈ t, isGoSpace c = false) →
      goFieldsAux (t ++ rest) acc = goFieldsAux rest (t.reverse ++ acc) := by
  intro t
  induction t with
  | nil => intro rest acc _; simp
  | cons c cs ih =>
    intro rest acc h
    have hc : isGoSpace c = false := h c (by simp)
    rw [List.cons_append, show goFieldsAux (c :: (cs ++ rest)) acc =
      if isGoSpace c then
        (if acc.isEmpty then goFieldsAux (cs ++ rest) []
         else acc.reverse :: goFieldsAux (cs ++ rest) [])
      else goFieldsAux (cs ++ rest) (c :: acc) from rfl]
    rw [hc]
    simp only [Bool.false_eq_true, if_false]
    rw [ih rest (c :: acc) (fun d hd => h d (by simp [hd]))]
    congr 1
    simp

/-- Splitting the space-join of clean tokens recovers the tokens. -/
theorem goFields_joinSpace :
    ∀ T : List Str,
      (∀ t ∈ T, t ≠ [] ∧ ∀ c ∈ t, isGoSpace c = false) →
      goFields (joinSpace T) = T := by
  intro T
  induction T with
  | nil => intro _; rfl
  | cons t ts ih =>
    intro h
    obtain ⟨htne, htc⟩ := h t (by simp)
    have hrevne : (t.reverse).isEmpty = false := by
      cases hrv : t.reverse with
      | nil => exact absurd (List.reverse_eq_nil_iff.mp hrv) htne
      | cons a l => rfl
    cases ts with
    | nil =>
      have h1 := goFieldsAux_append_token t [] [] htc
      simp only [List.append_nil] at h1
      unfold goFields
      rw [show joinSpace [t] = t from rfl, h1]
      unfold goFieldsAux
      rw [hrevne]
      simp
    | cons u us =>
      unfold goFields
      rw [show joinSpace (t :: u :: us) = t ++ ' ' :: joinSpace (u :: us)
        from rfl]
      rw [goFieldsAux_append_token t _ [] htc]
      simp only [List.append_nil]
      rw [show goFieldsAux (' ' :: joinSpace (u :: us)) t.reverse =
        if isGoSpace ' ' then
          (if (t.reverse).isEmpty then goFieldsAux (joinSpace (u :: us)) []
           else t.reverse.reverse :: goFieldsAux (joinSpace (u :: us)) [])
        else goFieldsAux (joinSpace (u :: us)) (' ' :: t.reverse) from rfl]
      rw [show isGoSpace ' ' = true from rfl, hrevne]
      simp only [if_true, Bool.false_eq_true, if_false, List.reverse_reverse]
      exact congrArg (t :: ·) (ih (fun t' ht' => h t' (by simp [ht'])))

/-- The character-level stability property enjoyed by every token of
`rawTokens`. -/
def stableChar (c : Char) : Prop := charLower c = c ∧ sepToSpace c = c

theorem rawTokens_props (s : Str) :
    ∀ t ∈ rawTokens s,
      t ≠ [] ∧ ∀ c ∈ t, stableChar c ∧ isGoSpace c = false := by
  intro t ht
  unfold rawTokens goFields at ht
  have hsrc : ∀ c ∈ (s.map charLower).map sepToSpace, stableChar c := by
    intro c hc
    obtain ⟨c1, hc1, hc1e⟩ := List.mem_map.mp hc
    obtain ⟨c0, _, hc0e⟩ := List.mem_map.mp hc1
    subst hc1e; subst hc0e
    exact ⟨charLower_sepToSpace_charLower c0,
      sepToSpace_sepToSpace (charLower c0)⟩
  exact goFieldsAux_tokens _ [] (fun c hc _ => hsrc c hc) (by simp) t ht

theorem mem_tokenize_sub (s : Str) : ∀ t ∈ Tokenize s, t ∈ rawTokens s := by
  intro t ht
  unfold Tokenize at ht
  dsimp only [] at ht
  by_cases hmw : 2 ≤ ((rawTokens s).filter isMeaningful).length
  · rw [if_pos hmw] at ht
    exact List.mem_of_mem_filter ht
  · rw [if_neg hmw] at ht
    exact ht

/-- Re-tokenizing the space-join of a token list whose tokens are clean
(non-empty, whitespace-free, lowercase, separator-free) yields the list
itself at the raw-token level. -/
theorem rawTokens_joinSpace (T : List Str)
    (hT : ∀ t ∈ T, t ≠ [] ∧ ∀ c ∈ t, stableChar c ∧ isGoSpace c = false) :
    rawTokens (joinSpace T) = T := by
  have hchar : ∀ c ∈ joinSpace T, stableChar c := by
    intro c hc
    rcases mem_joinSpace T c hc with h | ⟨t, ht, hct⟩
    · subst h
      exact ⟨charLower_space, sepToSpace_space⟩
    · exact ((hT t ht).2 c hct).1
  have h1 : (joinSpace T).map charLower = joinSpace T :=
    strMap_id _ (fun c hc => (hchar c hc).1)
  have h2 : (joinSpace T).map sepToSpace = joinSpace T :=
    strMap_id _ (fun c hc => (hchar c hc).2)
  unfold rawTokens
  rw [h1, h2]
  exact goFields_joinSpace T
    (fun t ht => ⟨(hT t ht).1, fun c hc => ((hT t ht).2 c hc).2⟩)

/-- C5: `Tokenize` is idempotent on its own space-joined output whenever
both the first tokenization and the rejoined string contain at least two
meaningful words. -/
theorem c5_tokenize_idempotent (s : Str)
    (h1 : 2 ≤ ((Tokenize s).filter isMeaningful).length)
    (h2 : 2 ≤ ((rawTokens (joinSpace (Tokenize s))).filter isMeaningful).length) :
    Tokenize (joinSpace (Tokenize s)) = Tokenize s := by
  have hraw : rawTokens (joinSpace (Tokenize s)) = Tokenize s :=
    rawTokens_joinSpace _
      (fun t ht => rawTokens_props s t (mem_tokenize_sub s t ht))
  set T := Tokenize s with hT
  calc Tokenize (joinSpace T)
      = ((rawTokens (joinSpace T)).filter keepToken) := by
        unfold Tokenize
        dsimp only []
        rw [if_pos (by rw [hraw]; exact h1)]
    _ = T.filter keepToken := by rw [hraw]
    _ = T := by
        apply List.filter_eq_self.mpr
        intro t ht
        rw [hT] at ht
        unfold Tokenize at ht
        dsimp only [] at ht
        by_cases hmw : 2 ≤ ((rawTokens s).filter isMeaningful).length
        · rw [if_pos hmw] at ht
          exact List.of_mem_filter ht
        · rw [if_neg hmw] at ht
          refine absurd ?_ hmw
          have hTs : Tokenize s = rawTokens s := by
            unfold Tokenize
            dsimp only []
            rw [if_neg hmw]
          rw [hT, hTs] at h1
          exact h1

/-- C5 witness: the theorem applied at a concrete query with enough
meaningful words. -/
theorem c5_witness :
    (2 ≤ ((Tokenize (str "show interface statistics")).filter
        isMeaningful).length) ∧
    Tokenize (joinSpace (Tokenize (str "show interface statistics"))) =
      Tokenize (str "show interface statistics") :=
  ⟨by decide,
   c5_tokenize_idempotent (str "show interface statistics")
     (by decide) (by decide)⟩

end EdaSearch
